import Mathlib

/-!
# Verification of the duplicate-finder similarity engine

Shallow embedding of `app/similarity.py` (class `SimilarityDetector`,
dataclass `SimilarityConfig`) and of the group-merging part of
`LocalFileSystemProvider.scan_directory` in
`app/storage_providers/local_filesystem.py`.

Modelling conventions:
* A file is a pair of its path (the identifier) and its byte content;
  `content = none` models a file every read of which raises `OSError`.
* The MD5 fingerprint of `_get_file_hash` is modelled as the byte content
  itself (an injective stand-in for a collision-free digest); a `none`
  content yields a `none` fingerprint, as in the source.
* Python floats are idealised as rationals (`ℚ`).
* The two image-based scorers call into OpenCV; their pixel-level numerics
  are outside the repository, so the per-image perceptual hash
  (`_calculate_perceptual_hash`, which returns `None` on failure) and the
  resized-correlation score of `_image_structural_similarity` are taken as
  parameters (`ImgOracle`); everything the repository itself does around
  them (extension gates, hamming formula, flooring) is embedded.
* `difflib.SequenceMatcher(None, a, b).ratio()` is embedded from the
  CPython implementation: `b2j` index with the autojunk heuristic,
  `find_longest_match` with its two non-junk extension loops, the
  recursive block decomposition of `get_matching_blocks`, and
  `_calculate_ratio`.
-/

/- The Batteries arithmetic on `ℚ` is `@[irreducible]`, which blocks
`decide`-style evaluation of the embedding on concrete inputs; restore the
default transparency (the kernel ignores reducibility anyway). -/
set_option allowUnsafeReducibility true in
attribute [semireducible] Rat.add Rat.mul Rat.inv Rat.div Rat.sub Rat.neg

/-- A file descriptor: the `{'path': ...}` dict of the source plus the byte
content the path denotes; `none` content models an unreadable file. -/
structure FileDesc where
  path : String
  content : Option (List Nat)
deriving DecidableEq, Repr

/-- The `SimilarityMethod` enum of `app/similarity.py`. -/
inductive SimilarityMethod where
  | hashExact
  | hashPerceptual
  | contentText
  | contentBinary
  | imageStructural
  | filenameFuzzy
deriving DecidableEq, Repr

/-- The `SimilarityConfig` dataclass (after `__post_init__` has run). -/
structure SimilarityConfig where
  threshold : ℚ
  methods : List SimilarityMethod
  enablePerceptualHash : Bool
  enableContentSimilarity : Bool
  enableImageSimilarity : Bool
  enableFilenameSimilarity : Bool
deriving DecidableEq, Repr

/-- The default put in place by `__post_init__` when `methods is None`. -/
def postInitMethods : Option (List SimilarityMethod) → List SimilarityMethod
  | none => [SimilarityMethod.hashExact, SimilarityMethod.hashPerceptual,
      SimilarityMethod.contentText, SimilarityMethod.imageStructural]
  | some ms => ms

/-- Construction of a `SimilarityConfig`, `methods = None` defaulting as in
`__post_init__`. -/
def mkSimilarityConfig (threshold : ℚ) (methods? : Option (List SimilarityMethod))
    (ph cs is fs : Bool) : SimilarityConfig :=
  { threshold := threshold
    methods := postInitMethods methods?
    enablePerceptualHash := ph
    enableContentSimilarity := cs
    enableImageSimilarity := is
    enableFilenameSimilarity := fs }

/-! ## Path machinery: `os.path.basename`, `os.path.splitext`, `.lower()` -/

/-- Index of the last occurrence of `c` in `s`, `-1` if absent
(Python `str.rfind`). -/
def rfindIdx (s : List Char) (c : Char) : Int :=
  match ((List.range s.length).filter fun i => s.getD i ' ' = c).getLast? with
  | some i => (i : Int)
  | none => -1

/-- `os.path.basename` for POSIX paths: everything after the last `/`. -/
def pyBasename (s : List Char) : List Char :=
  s.drop ((rfindIdx s '/') + 1).toNat

/-- The extension component of `os.path.splitext`: the suffix from the last
dot, provided some non-dot character stands between the last separator and
that dot (so dotfiles have no extension). -/
def splitExtExt (p : List Char) : List Char :=
  let sepIdx := rfindIdx p '/'
  let dotIdx := rfindIdx p '.'
  if sepIdx < dotIdx then
    if (List.range' (sepIdx + 1).toNat (dotIdx - (sepIdx + 1)).toNat).any
        (fun k => p.getD k '.' ≠ '.') then
      p.drop dotIdx.toNat
    else []
  else []

/-- The root component of `os.path.splitext`. -/
def splitExtRoot (p : List Char) : List Char :=
  p.take (p.length - (splitExtExt p).length)

/-- ASCII `.lower()`. -/
def lowerStr (s : List Char) : List Char := s.map Char.toLower

/-- `self._image_extensions`. -/
def imageExtensions : List (List Char) :=
  [".jpg".toList, ".jpeg".toList, ".png".toList, ".bmp".toList,
   ".gif".toList, ".tiff".toList, ".webp".toList]

/-- `self._text_extensions`. -/
def textExtensions : List (List Char) :=
  [".txt".toList, ".md".toList, ".py".toList, ".js".toList, ".html".toList,
   ".css".toList, ".json".toList, ".xml".toList, ".csv".toList]

/-- `_is_image_file`. -/
def isImageFile (p : String) : Bool :=
  lowerStr (splitExtExt p.toList) ∈ imageExtensions

/-- `_is_text_file`. -/
def isTextFile (p : String) : Bool :=
  lowerStr (splitExtExt p.toList) ∈ textExtensions

/-! ## `difflib.SequenceMatcher` (CPython implementation, `isjunk = None`) -/

/-- Append index `i` to the bucket of `c` (insertion-ordered `b2j` dict). -/
def b2jInsert : List (Char × List Nat) → Char → Nat → List (Char × List Nat)
  | [], c, i => [(c, [i])]
  | (c', js) :: rest, c, i =>
      if c' = c then (c', js ++ [i]) :: rest else (c', js) :: b2jInsert rest c i

/-- Build the raw `b2j` index of `__chain_b`: each element of `b` mapped to
its ascending list of indices. -/
def b2jRaw : List Char → Nat → List (Char × List Nat) → List (Char × List Nat)
  | [], _, acc => acc
  | c :: cs, i, acc => b2jRaw cs (i + 1) (b2jInsert acc c i)

/-- `__chain_b` with the autojunk heuristic: for `len(b) >= 200`, elements
occurring more than `len(b) // 100 + 1` times are deleted from the index. -/
def chainB (b : List Char) : List (Char × List Nat) :=
  let m := b2jRaw b 0 []
  let n := b.length
  if 200 ≤ n then m.filter (fun e => ¬ (n / 100 + 1 < e.2.length)) else m

/-- Bucket lookup in the `b2j` index. -/
def b2jGet (m : List (Char × List Nat)) (c : Char) : List Nat :=
  match m.find? (fun e => e.1 = c) with
  | some e => e.2
  | none => []

/-- `j2len` dictionary lookup with default `0`. -/
def j2lenGet (m : List (Nat × Nat)) (j : Nat) : Nat :=
  match m.find? (fun e => e.1 = j) with
  | some e => e.2
  | none => 0

/-- Inner candidate loop of `find_longest_match` for one position `i` of
`a`: extends runs recorded in the previous `j2len`, building the new one,
and improves the current best on a strictly longer run. -/
def flmCands (j2len : List (Nat × Nat)) (i : Nat) :
    List Nat → List (Nat × Nat) → Nat × Nat × Nat → List (Nat × Nat) × (Nat × Nat × Nat)
  | [], newj2len, best => (newj2len, best)
  | j :: js, newj2len, best =>
      let k := (if j = 0 then 0 else j2lenGet j2len (j - 1)) + 1
      let best' := if best.2.2 < k then (i + 1 - k, j + 1 - k, k) else best
      flmCands j2len i js ((j, k) :: newj2len) best'

/-- Outer loop of `find_longest_match` over the positions of `a`. -/
def flmLoop (a : List Char) (b2j : List (Char × List Nat)) (blo bhi : Nat) :
    List Nat → List (Nat × Nat) → Nat × Nat × Nat → Nat × Nat × Nat
  | [], _, best => best
  | i :: is, j2len, best =>
      let cands := (b2jGet b2j (a.getD i ' ')).filter fun j => blo ≤ j && j < bhi
      let step := flmCands j2len i cands [] best
      flmLoop a b2j blo bhi is step.1 step.2

/-- Left extension loop of `find_longest_match` (the `bjunk` set is empty
since `isjunk is None`, so the junk conditions vanish); the fuel argument
only bounds the iteration count, which the wrapper makes large enough. -/
def extLeftFuel (a b : List Char) (alo blo : Nat) :
    Nat → Nat → Nat → Nat → Nat × Nat × Nat
  | 0, besti, bestj, bestsize => (besti, bestj, bestsize)
  | fuel + 1, besti, bestj, bestsize =>
      if alo < besti ∧ blo < bestj ∧
          a.getD (besti - 1) ' ' = b.getD (bestj - 1) ' ' then
        extLeftFuel a b alo blo fuel (besti - 1) (bestj - 1) (bestsize + 1)
      else (besti, bestj, bestsize)

/-- Left extension: at most `besti` steps can run, so that much fuel is
exact. -/
def extLeft (a b : List Char) (alo blo besti bestj bestsize : Nat) :
    Nat × Nat × Nat :=
  extLeftFuel a b alo blo besti besti bestj bestsize

/-- Right extension loop of `find_longest_match`, fuelled like the left
one. -/
def extRightFuel (a b : List Char) (ahi bhi : Nat) (besti bestj : Nat) :
    Nat → Nat → Nat
  | 0, bestsize => bestsize
  | fuel + 1, bestsize =>
      if besti + bestsize < ahi ∧ bestj + bestsize < bhi ∧
          a.getD (besti + bestsize) ' ' = b.getD (bestj + bestsize) ' ' then
        extRightFuel a b ahi bhi besti bestj fuel (bestsize + 1)
      else bestsize

/-- Right extension: at most `ahi` steps can run. -/
def extRight (a b : List Char) (ahi bhi besti bestj bestsize : Nat) : Nat :=
  extRightFuel a b ahi bhi besti bestj ahi bestsize

/-- `find_longest_match(alo, ahi, blo, bhi)`. -/
def findLongestMatch (a b : List Char) (b2j : List (Char × List Nat))
    (alo ahi blo bhi : Nat) : Nat × Nat × Nat :=
  let best := flmLoop a b2j blo bhi (List.range' alo (ahi - alo)) [] (alo, blo, 0)
  let ext := extLeft a b alo blo best.1 best.2.1 best.2.2
  (ext.1, ext.2.1, extRight a b ahi bhi ext.1 ext.2.1 ext.2.2)

/-- Total length of the blocks produced by the recursive decomposition of
`get_matching_blocks` (the sort-and-merge step of the source does not
change the total, which is all `ratio()` consumes). -/
def smMatchesRec (a b : List Char) (b2j : List (Char × List Nat)) :
    Nat → Nat → Nat → Nat → Nat → Nat
  | 0, _, _, _, _ => 0
  | fuel + 1, alo, ahi, blo, bhi =>
      let m := findLongestMatch a b b2j alo ahi blo bhi
      let i := m.1
      let j := m.2.1
      let k := m.2.2
      if k = 0 then 0
      else
        (if alo < i ∧ blo < j then smMatchesRec a b b2j fuel alo i blo j else 0)
          + k
          + (if i + k < ahi ∧ j + k < bhi then
              smMatchesRec a b b2j fuel (i + k) ahi (j + k) bhi else 0)

/-- `sum(triple[-1] for triple in sm.get_matching_blocks())`. -/
def smMatches (a b : List Char) : Nat :=
  smMatchesRec a b (chainB b) (a.length + b.length + 1) 0 a.length 0 b.length

/-- `difflib._calculate_ratio`. -/
def pyRatioCalc (m n : Nat) : ℚ :=
  if n = 0 then 1 else 2 * (m : ℚ) / (n : ℚ)

/-- `difflib.SequenceMatcher(None, a, b).ratio()`. -/
def seqMatchScore (a b : List Char) : ℚ :=
  pyRatioCalc (smMatches a b) (a.length + b.length)

/-! ## UTF-8 decoding (`errors='ignore'` versus the spec's "replaced") -/

/-- A UTF-8 continuation byte. -/
def isContByte (b : Nat) : Bool := 0x80 ≤ b && b ≤ 0xBF

/-- Decode one UTF-8 sequence starting at byte `b` with lookahead `rest`:
returns the decoded character (or `none` on a malformed sequence) and how
many bytes beyond `b` were consumed (the maximal valid subpart, as in
CPython's error handling). -/
def utf8Step (b : Nat) (rest : List Nat) : Option Char × Nat :=
  if b < 0x80 then (some (Char.ofNat b), 0)
  else if 0xC2 ≤ b ∧ b ≤ 0xDF then
    match rest with
    | c1 :: _ =>
        if isContByte c1 then
          (some (Char.ofNat ((b - 0xC0) * 64 + (c1 - 0x80))), 1)
        else (none, 0)
    | [] => (none, 0)
  else if 0xE0 ≤ b ∧ b ≤ 0xEF then
    match rest with
    | c1 :: rest1 =>
        if (b = 0xE0 ∧ 0xA0 ≤ c1 ∧ c1 ≤ 0xBF) ∨
            (b = 0xED ∧ 0x80 ≤ c1 ∧ c1 ≤ 0x9F) ∨
            (b ≠ 0xE0 ∧ b ≠ 0xED ∧ isContByte c1) then
          match rest1 with
          | c2 :: _ =>
              if isContByte c2 then
                (some (Char.ofNat
                  ((b - 0xE0) * 4096 + (c1 - 0x80) * 64 + (c2 - 0x80))), 2)
              else (none, 1)
          | [] => (none, 1)
        else (none, 0)
    | [] => (none, 0)
  else if 0xF0 ≤ b ∧ b ≤ 0xF4 then
    match rest with
    | c1 :: rest1 =>
        if (b = 0xF0 ∧ 0x90 ≤ c1 ∧ c1 ≤ 0xBF) ∨
            (b = 0xF4 ∧ 0x80 ≤ c1 ∧ c1 ≤ 0x8F) ∨
            (b ≠ 0xF0 ∧ b ≠ 0xF4 ∧ isContByte c1) then
          match rest1 with
          | c2 :: rest2 =>
              if isContByte c2 then
                match rest2 with
                | c3 :: _ =>
                    if isContByte c3 then
                      (some (Char.ofNat ((b - 0xF0) * 262144 +
                        (c1 - 0x80) * 4096 + (c2 - 0x80) * 64 + (c3 - 0x80))), 3)
                    else (none, 2)
                | [] => (none, 2)
              else (none, 1)
          | [] => (none, 1)
        else (none, 0)
    | [] => (none, 0)
  else (none, 0)

/-- UTF-8 decoding where each malformed sequence contributes `bad`; each
step consumes at least one byte, so the input length is enough fuel. -/
def decodeUtf8Fuel (bad : List Char) : Nat → List Nat → List Char
  | 0, _ => []
  | _, [] => []
  | fuel + 1, b :: rest =>
      let st := utf8Step b rest
      (match st.1 with
        | some c => [c]
        | none => bad) ++ decodeUtf8Fuel bad fuel (rest.drop st.2)

/-- UTF-8 decoding where each malformed sequence contributes `bad`. -/
def decodeUtf8With (bad : List Char) (l : List Nat) : List Char :=
  decodeUtf8Fuel bad l.length l

/-- `errors='ignore'`: malformed sequences are dropped (the source's
behaviour in `_text_content_similarity`). -/
def decodeIgnore (l : List Nat) : List Char := decodeUtf8With [] l

/-- Modelled from the spec: "invalid byte sequences replaced rather than
raising" describes `errors='replace'`, each malformed sequence becoming
U+FFFD; the source instead passes `errors='ignore'`. -/
def specDecodeReplace (l : List Nat) : List Char :=
  decodeUtf8With [Char.ofNat 0xFFFD] l

/-- Universal-newline translation performed by text-mode `open`
(`newline=None`): `"\r\n"` and lone `"\r"` become `"\n"` in the decoded
stream before any consumer sees it. -/
def universalNewlines : List Char → List Char
  | [] => []
  | '\r' :: '\n' :: rest => '\n' :: universalNewlines rest
  | '\r' :: rest => '\n' :: universalNewlines rest
  | c :: rest => c :: universalNewlines rest

/-! ## The similarity methods -/

/-- Python's builtin `max` on two floats (used with the running maximum);
written with `<` so that it evaluates on concrete rationals. -/
def pyMax (a b : ℚ) : ℚ := if a < b then b else a


/-- Number of set bits, fuelled (halving at least once per step, `n` fuel
is ample). -/
def popCountFuel : Nat → Nat → Nat
  | 0, _ => 0
  | _ + 1, 0 => 0
  | fuel + 1, n + 1 => (n + 1) % 2 + popCountFuel fuel ((n + 1) / 2)

/-- Number of set bits (`bin(x).count('1')`). -/
def popCount (n : Nat) : Nat := popCountFuel n n

/-- The OpenCV-dependent inputs of the two image methods, taken as
parameters: `pHash f` is `_calculate_perceptual_hash(f.path)` (already
`None` on any internal failure, as that function catches everything), and
`structScore f1 f2` is the clamped correlation score computed by the body
of `_image_structural_similarity` after its extension gate (total, since
that body catches its own exceptions and returns 0.0). -/
structure ImgOracle where
  pHash : FileDesc → Option Nat
  structScore : FileDesc → FileDesc → ℚ

/-- `_perceptual_hash_similarity`: extension gate, then
`1 - hamming/64` floored at `0`; missing hash gives `0.0`. -/
def perceptualHashSimilarity (o : ImgOracle) (f1 f2 : FileDesc) : ℚ :=
  if ¬ (isImageFile f1.path ∧ isImageFile f2.path) then 0
  else
    match o.pHash f1, o.pHash f2 with
    | some h1, some h2 => pyMax 0 (1 - (popCount (h1 ^^^ h2) : ℚ) / 64)
    | _, _ => 0

/-- `_image_structural_similarity`: extension gate, then the oracle. -/
def imageStructuralSimilarity (o : ImgOracle) (f1 f2 : FileDesc) : ℚ :=
  if ¬ (isImageFile f1.path ∧ isImageFile f2.path) then 0
  else o.structScore f1 f2

/-- `_text_content_similarity`: extension gate, then the text-mode read of
both contents (`utf-8`/`errors='ignore'` decode followed by the
universal-newline translation of `open(..., 'r')`), then
`SequenceMatcher.ratio()`; an unreadable file makes `open` raise, which
the method catches, returning `0.0`. -/
def textContentSimilarity (f1 f2 : FileDesc) : ℚ :=
  if ¬ (isTextFile f1.path ∧ isTextFile f2.path) then 0
  else
    match f1.content, f2.content with
    | some c1, some c2 =>
        seqMatchScore (universalNewlines (decodeIgnore c1))
          (universalNewlines (decodeIgnore c2))
    | _, _ => 0

/-- `_binary_content_similarity`: matching positions over the byte strings;
unequal lengths compare the overlapping part and divide by the longer
length; an unreadable file yields `0.0` via the catch. -/
def binaryContentSimilarity (f1 f2 : FileDesc) : ℚ :=
  match f1.content, f2.content with
  | some c1, some c2 =>
      if c1.length ≠ c2.length then
        let minLen := min c1.length c2.length
        let maxLen := max c1.length c2.length
        if maxLen = 0 then 1
        else ((List.range minLen).countP
            (fun i => c1.getD i 0 = c2.getD i 0) : ℚ) / (maxLen : ℚ)
      else
        if c1.length = 0 then 1
        else ((c1.zip c2).countP (fun p => p.1 = p.2) : ℚ) / (c1.length : ℚ)
  | _, _ => 0

/-- `_filename_similarity`: lowercased basenames, extensions stripped,
`SequenceMatcher.ratio()`. -/
def filenameSimilarity (f1 f2 : FileDesc) : ℚ :=
  let n1 := splitExtRoot (lowerStr (pyBasename f1.path.toList))
  let n2 := splitExtRoot (lowerStr (pyBasename f2.path.toList))
  seqMatchScore n1 n2

/-- `_get_file_hash`: the MD5 digest modelled as the content itself,
`none` when reading raises. -/
def getFileHash (f : FileDesc) : Option (List Nat) := f.content

/-- `_files_have_same_hash` (`hash1 and hash2 and hash1 == hash2`). -/
def filesHaveSameHash (f1 f2 : FileDesc) : Bool :=
  match getFileHash f1, getFileHash f2 with
  | some h1, some h2 => h1 = h2
  | _, _ => false

/-! ## `_calculate_similarity` -/

/-- The `if`/`elif` dispatch of `_calculate_similarity`: a method runs only
when its enum case is paired with an enabled toggle; `HASH_EXACT` and any
method whose toggle is off fall to the `else: continue` branch (`none`). -/
def methodScore (o : ImgOracle) (cfg : SimilarityConfig) (f1 f2 : FileDesc) :
    SimilarityMethod → Option ℚ
  | SimilarityMethod.hashPerceptual =>
      if cfg.enablePerceptualHash then some (perceptualHashSimilarity o f1 f2) else none
  | SimilarityMethod.contentText =>
      if cfg.enableContentSimilarity then some (textContentSimilarity f1 f2) else none
  | SimilarityMethod.contentBinary =>
      if cfg.enableContentSimilarity then some (binaryContentSimilarity f1 f2) else none
  | SimilarityMethod.imageStructural =>
      if cfg.enableImageSimilarity then some (imageStructuralSimilarity o f1 f2) else none
  | SimilarityMethod.filenameFuzzy =>
      if cfg.enableFilenameSimilarity then some (filenameSimilarity f1 f2) else none
  | SimilarityMethod.hashExact => none

/-- The method loop of `_calculate_similarity`: running maximum with the
early-exit `break` once the maximum reaches the threshold. -/
def simLoop (score : SimilarityMethod → Option ℚ) (t : ℚ) :
    List SimilarityMethod → ℚ → ℚ
  | [], m => m
  | meth :: rest, m =>
      match score meth with
      | none => simLoop score t rest m
      | some s =>
          let m' := pyMax m s
          if t ≤ m' then m' else simLoop score t rest m'

/-- The same loop with the early-exit `break` removed (every configured
method evaluated). -/
def simLoopFull (score : SimilarityMethod → Option ℚ) :
    List SimilarityMethod → ℚ → ℚ
  | [], m => m
  | meth :: rest, m =>
      match score meth with
      | none => simLoopFull score rest m
      | some s => simLoopFull score rest (pyMax m s)

/-- The method loop over possibly-raising method bodies
(`Except.error` = the body raised): the source's `try`/`except` turns a
raise into `continue`, skipping both the maximum update and the early-exit
check. -/
def simLoopE (score : SimilarityMethod → Option (Except Unit ℚ)) (t : ℚ) :
    List SimilarityMethod → ℚ → Except Unit ℚ
  | [], m => Except.ok m
  | meth :: rest, m =>
      match score meth with
      | none => simLoopE score t rest m
      | some (Except.error _) => simLoopE score t rest m
      | some (Except.ok s) =>
          let m' := pyMax m s
          if t ≤ m' then Except.ok m' else simLoopE score t rest m'

/-- `_calculate_similarity`: fingerprint fast path, then the method loop. -/
def calculateSimilarity (o : ImgOracle) (cfg : SimilarityConfig)
    (f1 f2 : FileDesc) : ℚ :=
  if filesHaveSameHash f1 f2 then 1
  else simLoop (methodScore o cfg f1 f2) cfg.threshold cfg.methods 0

/-- `_calculate_similarity` with the early exit removed. -/
def calculateSimilarityFull (o : ImgOracle) (cfg : SimilarityConfig)
    (f1 f2 : FileDesc) : ℚ :=
  if filesHaveSameHash f1 f2 then 1
  else simLoopFull (methodScore o cfg f1 f2) cfg.methods 0

/-- Collapse a possibly-raising method table through the source's catch:
a raising body is skipped exactly like a `continue`. -/
def catchScore (score : SimilarityMethod → Option (Except Unit ℚ)) :
    SimilarityMethod → Option ℚ := fun m =>
  match score m with
  | some (Except.ok s) => some s
  | _ => none

/-- Replace every raising method body by one returning score `0.0`
(method-table level). -/
def errToZeroM (score : SimilarityMethod → Option (Except Unit ℚ)) :
    SimilarityMethod → Option (Except Unit ℚ) := fun m =>
  match score m with
  | some (Except.error _) => some (Except.ok 0)
  | v => v

/-- Replace every raising method body by one returning score `0.0`. -/
def errToZero
    (se : FileDesc → FileDesc → SimilarityMethod → Option (Except Unit ℚ)) :
    FileDesc → FileDesc → SimilarityMethod → Option (Except Unit ℚ) :=
  fun f1 f2 => errToZeroM (se f1 f2)

/-- `_calculate_similarity` over an abstract, possibly-raising method
family. -/
def calcSimFamE
    (se : FileDesc → FileDesc → SimilarityMethod → Option (Except Unit ℚ))
    (t : ℚ) (ms : List SimilarityMethod) (f1 f2 : FileDesc) : Except Unit ℚ :=
  if filesHaveSameHash f1 f2 then Except.ok 1
  else simLoopE (se f1 f2) t ms 0

/-- The pure value `_calculate_similarity` computes for an abstract method
family once every raise has been caught. -/
def calcSimFamCaught
    (se : FileDesc → FileDesc → SimilarityMethod → Option (Except Unit ℚ))
    (t : ℚ) (ms : List SimilarityMethod) (f1 f2 : FileDesc) : ℚ :=
  if filesHaveSameHash f1 f2 then 1
  else simLoop (catchScore (se f1 f2)) t ms 0

/-! ## `find_similar_files` and `_find_exact_duplicates` -/

/-- Inner loop of `find_similar_files`: scan the files after the anchor,
adding every still-unassigned file whose similarity to the anchor clears
the threshold, and marking it assigned. -/
def groupScan (scorer : FileDesc → FileDesc → ℚ) (t : ℚ) (anchor : FileDesc) :
    List FileDesc → List String → List FileDesc × List String
  | [], assigned => ([], assigned)
  | f2 :: rest, assigned =>
      if f2.path ∈ assigned then groupScan scorer t anchor rest assigned
      else if t ≤ scorer anchor f2 then
        let r := groupScan scorer t anchor rest (f2.path :: assigned)
        (f2 :: r.1, r.2)
      else groupScan scorer t anchor rest assigned

/-- Outer loop of `find_similar_files`: each still-unassigned file anchors
a fresh group keyed `group_<its index>`; only groups with more than one
member are emitted. -/
def clusterLoop (scorer : FileDesc → FileDesc → ℚ) (t : ℚ) :
    List FileDesc → Nat → List String → List (String × List FileDesc)
  | [], _, _ => []
  | f1 :: rest, i, assigned =>
      if f1.path ∈ assigned then clusterLoop scorer t rest (i + 1) assigned
      else
        let r := groupScan scorer t f1 rest (f1.path :: assigned)
        let group := f1 :: r.1
        if 1 < group.length then
          ("group_" ++ toString i, group) :: clusterLoop scorer t rest (i + 1) r.2
        else clusterLoop scorer t rest (i + 1) r.2

/-- Append a file to the bucket of its hash, creating the bucket at the end
on first sight (Python dict insertion order). -/
def bucketAdd : List (List Nat × List FileDesc) → List Nat → FileDesc →
    List (List Nat × List FileDesc)
  | [], h, f => [(h, [f])]
  | (h', g) :: rest, h, f =>
      if h' = h then (h', g ++ [f]) :: rest else (h', g) :: bucketAdd rest h f

/-- The hash-bucket loop of `_find_exact_duplicates`: files whose hash is
unavailable (`if file_hash:` falsy) are skipped. -/
def buildHashDict : List FileDesc → List (List Nat × List FileDesc) →
    List (List Nat × List FileDesc)
  | [], acc => acc
  | f :: rest, acc =>
      match getFileHash f with
      | none => buildHashDict rest acc
      | some h => buildHashDict rest (bucketAdd acc h f)

/-- `_find_exact_duplicates`: hash buckets with at least two members. -/
def findExactDuplicates (files : List FileDesc) : List (List Nat × List FileDesc) :=
  (buildHashDict files []).filter fun e => 1 < e.2.length

/-- `find_similar_files`: the exact-hash fast path at `threshold >= 1.0`
(bucket keyed by digest, rendered as a string), otherwise the anchor
clustering pass. -/
def findSimilarFiles (o : ImgOracle) (cfg : SimilarityConfig)
    (files : List FileDesc) : List (String × List FileDesc) :=
  if 1 ≤ cfg.threshold then
    (findExactDuplicates files).map fun e => (toString e.1, e.2)
  else clusterLoop (calculateSimilarity o cfg) cfg.threshold files 0 []

/-! ## `find_similar_files` in the exception monad

Methods may raise; the only catch is the one in `_calculate_similarity`
(embedded inside `simLoopE`); everything else propagates. -/

/-- Inner scan with a possibly-raising scorer: a raise here would escape
`find_similar_files`. -/
def groupScanE (scorer : FileDesc → FileDesc → Except Unit ℚ) (t : ℚ)
    (anchor : FileDesc) :
    List FileDesc → List String → Except Unit (List FileDesc × List String)
  | [], assigned => Except.ok ([], assigned)
  | f2 :: rest, assigned =>
      if f2.path ∈ assigned then groupScanE scorer t anchor rest assigned
      else
        match scorer anchor f2 with
        | Except.error e => Except.error e
        | Except.ok s =>
            if t ≤ s then
              match groupScanE scorer t anchor rest (f2.path :: assigned) with
              | Except.error e => Except.error e
              | Except.ok r => Except.ok (f2 :: r.1, r.2)
            else groupScanE scorer t anchor rest assigned

/-- Outer clustering loop with a possibly-raising scorer. -/
def clusterLoopE (scorer : FileDesc → FileDesc → Except Unit ℚ) (t : ℚ) :
    List FileDesc → Nat → List String → Except Unit (List (String × List FileDesc))
  | [], _, _ => Except.ok []
  | f1 :: rest, i, assigned =>
      if f1.path ∈ assigned then clusterLoopE scorer t rest (i + 1) assigned
      else
        match groupScanE scorer t f1 rest (f1.path :: assigned) with
        | Except.error e => Except.error e
        | Except.ok r =>
            let group := f1 :: r.1
            if 1 < group.length then
              match clusterLoopE scorer t rest (i + 1) r.2 with
              | Except.error e => Except.error e
              | Except.ok gs => Except.ok (("group_" ++ toString i, group) :: gs)
            else clusterLoopE scorer t rest (i + 1) r.2

/-- The whole engine over an abstract, possibly-raising method family. -/
def findSimilarFilesE
    (se : FileDesc → FileDesc → SimilarityMethod → Option (Except Unit ℚ))
    (t : ℚ) (ms : List SimilarityMethod) (files : List FileDesc) :
    Except Unit (List (String × List FileDesc)) :=
  if 1 ≤ t then
    Except.ok ((findExactDuplicates files).map fun e => (toString e.1, e.2))
  else clusterLoopE (calcSimFamE se t ms) t files 0 []

/-- The pure result of the engine over the same abstract family, every
raise caught at the method boundary. -/
def findSimilarFilesCaught
    (se : FileDesc → FileDesc → SimilarityMethod → Option (Except Unit ℚ))
    (t : ℚ) (ms : List SimilarityMethod) (files : List FileDesc) :
    List (String × List FileDesc) :=
  if 1 ≤ t then
    (findExactDuplicates files).map fun e => (toString e.1, e.2)
  else clusterLoop (calcSimFamCaught se t ms) t files 0 []

/-! ## The merge step of `LocalFileSystemProvider.scan_directory` -/

/-- Paths of `group[1:]` across the exact groups (`exact_file_paths`). -/
def exactTailPaths (exact : List (List Nat × List FileDesc)) : List String :=
  exact.foldr (fun e acc => (e.2.drop 1).map FileDesc.path ++ acc) []

/-- Renumber merged groups `group_0`, `group_1`, ... -/
def mergeNumber : List (List FileDesc) → Nat → List (String × List FileDesc)
  | [], _ => []
  | g :: gs, i => ("group_" ++ toString i, g) :: mergeNumber gs (i + 1)

/-- Lines 165-207 of `scan_directory`, from the collected file list on:
exact groups first; all but the first member of each exact group removed
from the candidate list; the similarity pass (configuration built with the
default methods) run on the remainder when enabled and the threshold is
below 1.0; both group sets renumbered into one mapping. -/
def scanMerge (o : ImgOracle) (enableSimilarityDetection : Bool)
    (simThreshold : ℚ) (ph cs is fs : Bool) (allFiles : List FileDesc) :
    List (String × List FileDesc) :=
  let exact := findExactDuplicates allFiles
  let exactPaths := exactTailPaths exact
  let filtered := allFiles.filter fun f => f.path ∉ exactPaths
  if ¬ (enableSimilarityDetection ∧ simThreshold < 1) then
    exact.map fun e => (toString e.1, e.2)
  else
    let cfg := mkSimilarityConfig simThreshold none ph cs is fs
    let similar := findSimilarFiles o cfg filtered
    mergeNumber (exact.map (fun e => e.2) ++ similar.map (fun e => e.2)) 0

/-! ## `get_similarity_explanation` -/

/-- Python `f"{q:.1%}"` on the idealised rational score: round half to even
at one decimal of the percentage. -/
def ratFloor (q : ℚ) : ℤ := Int.fdiv q.num (q.den : ℤ)

/-- Round half to even on the idealised rational. -/
def halfEvenRound (q : ℚ) : ℤ :=
  if q - ratFloor q < 1 / 2 then ratFloor q
  else if 1 / 2 < q - ratFloor q then ratFloor q + 1
  else if ratFloor q % 2 = 0 then ratFloor q else ratFloor q + 1

/-- Percentage with one decimal, e.g. `fmtPercent (3/4) = "75.0%"`. -/
def fmtPercent (q : ℚ) : String :=
  let n := halfEvenRound (q * 1000)
  toString (n / 10) ++ "." ++ toString (n % 10) ++ "%"

/-- The `for` loop of `get_similarity_explanation`: same dispatch pairs as
the scorer except that `CONTENT_BINARY` has no branch; a qualifying method
appends its labelled percentage. -/
def explainLoop (o : ImgOracle) (cfg : SimilarityConfig) (f1 f2 : FileDesc) :
    List SimilarityMethod → List String → List String
  | [], acc => acc
  | m :: rest, acc =>
      match m with
      | SimilarityMethod.hashPerceptual =>
          if cfg.enablePerceptualHash then
            let s := perceptualHashSimilarity o f1 f2
            explainLoop o cfg f1 f2 rest
              (if cfg.threshold ≤ s then acc ++ ["Visual similarity: " ++ fmtPercent s] else acc)
          else explainLoop o cfg f1 f2 rest acc
      | SimilarityMethod.contentText =>
          if cfg.enableContentSimilarity then
            let s := textContentSimilarity f1 f2
            explainLoop o cfg f1 f2 rest
              (if cfg.threshold ≤ s then acc ++ ["Text content similarity: " ++ fmtPercent s] else acc)
          else explainLoop o cfg f1 f2 rest acc
      | SimilarityMethod.imageStructural =>
          if cfg.enableImageSimilarity then
            let s := imageStructuralSimilarity o f1 f2
            explainLoop o cfg f1 f2 rest
              (if cfg.threshold ≤ s then acc ++ ["Image structure similarity: " ++ fmtPercent s] else acc)
          else explainLoop o cfg f1 f2 rest acc
      | SimilarityMethod.filenameFuzzy =>
          if cfg.enableFilenameSimilarity then
            let s := filenameSimilarity f1 f2
            explainLoop o cfg f1 f2 rest
              (if cfg.threshold ≤ s then acc ++ ["Filename similarity: " ++ fmtPercent s] else acc)
          else explainLoop o cfg f1 f2 rest acc
      | _ => explainLoop o cfg f1 f2 rest acc

/-- `get_similarity_explanation`. -/
def getSimilarityExplanation (o : ImgOracle) (cfg : SimilarityConfig)
    (f1 f2 : FileDesc) : String :=
  if filesHaveSameHash f1 f2 then "Identical content (same hash)"
  else
    let es := explainLoop o cfg f1 f2 cfg.methods []
    if es = [] then "Unknown similarity" else String.intercalate "; " es

/-! ## Shared concrete instances and helper lemmas -/

/-- The all-failing image oracle: every perceptual hash unavailable, every
structural score `0.0` (what the source computes on non-image inputs). -/
def trivOracle : ImgOracle := ⟨fun _ => none, fun _ _ => 0⟩

/-- Cardinality of the matching positions below `n` as a list count. -/
theorem card_filter_range (n : Nat) (p : Nat → Prop) [DecidablePred p] :
    ((Finset.range n).filter p).card = (List.range n).countP (fun i => decide (p i)) := by
  classical
  rw [Finset.card_filter]
  induction n with
  | zero => simp
  | succ k ih =>
      rw [Finset.sum_range_succ, ih, List.range_succ, List.countP_append]
      simp [List.countP_cons]

/-- Matching-position count through `zip` equals the index-based count when
the lengths agree. -/
theorem zip_countP_eq_range (c1 c2 : List Nat) (h : c1.length = c2.length) :
    (c1.zip c2).countP (fun p => decide (p.1 = p.2)) =
      (List.range c1.length).countP (fun i => decide (c1.getD i 0 = c2.getD i 0)) := by
  induction c1 generalizing c2 with
  | nil => simp
  | cons a as ih =>
      cases c2 with
      | nil => simp at h
      | cons b bs =>
          have hlen : as.length = bs.length := by simpa using h
          rw [List.zip_cons_cons, List.countP_cons]
          rw [show (a :: as).length = as.length + 1 from rfl]
          rw [List.range_succ_eq_map, List.countP_cons, List.countP_map]
          have hc : List.countP
                ((fun i => decide ((a :: as).getD i 0 = (b :: bs).getD i 0)) ∘ Nat.succ)
                (List.range as.length) =
              List.countP (fun i => decide (as.getD i 0 = bs.getD i 0))
                (List.range as.length) := by
            refine List.countP_congr ?_
            intro i _
            simp [Function.comp, List.getD_cons_succ]
          rw [hc, ih bs hlen]
          simp [List.getD_cons_zero]

/-- Methods whose dispatch always falls to `continue` can be erased from
the methods list without changing the loop's result. -/
theorem simLoop_filter_none (score : SimilarityMethod → Option ℚ) (t : ℚ)
    (p : SimilarityMethod → Bool) (hp : ∀ m, p m = false → score m = none) :
    ∀ (ms : List SimilarityMethod) (acc : ℚ),
      simLoop score t (ms.filter p) acc = simLoop score t ms acc := by
  intro ms
  induction ms with
  | nil => intro acc; rfl
  | cons m rest ih =>
      intro acc
      cases hsm : score m with
      | none =>
          by_cases hm : p m = true
          · rw [List.filter_cons_of_pos hm]
            simp only [simLoop, hsm]
            exact ih acc
          · have hm' : p m = false := by revert hm; cases p m <;> simp
            rw [List.filter_cons_of_neg (by simp [hm'])]
            conv_rhs => rw [simLoop]
            rw [hsm]
            exact ih acc
      | some s =>
          have hm : p m = true := by
            by_contra hc
            have hnone := hp m (by revert hc; cases p m <;> simp)
            rw [hnone] at hsm
            cases hsm
          rw [List.filter_cons_of_pos hm]
          simp only [simLoop, hsm]
          by_cases hts : t ≤ pyMax acc s
          · simp [hts]
          · simp only [if_neg hts]
            exact ih (pyMax acc s)

/-- C2 counterexample: with `methods` unset, the constructed configuration
does not default to the three-element list the claim states; `HASH_EXACT`
is listed explicitly. -/
theorem c2_default_methods_counterexample :
    (mkSimilarityConfig 1 none true true true false).methods ≠
      [SimilarityMethod.hashPerceptual, SimilarityMethod.contentText,
        SimilarityMethod.imageStructural] ∧
    SimilarityMethod.hashExact ∈ (mkSimilarityConfig 1 none true true true false).methods := by
  constructor
  · decide
  · decide

/-- C2 (amended): an unset `methods` list defaults to
`[ExactHash, PerceptualHash, ContentText, ImageStructural]` — `ExactHash`
is listed explicitly but is inert in the dispatch loop (its case falls to
`continue`), exact equality being served by the fingerprint fast path, so
erasing it from any methods list never changes the score. -/
theorem c2_default_methods_amended :
    (∀ (t : ℚ) (ph cs si fs : Bool),
      (mkSimilarityConfig t none ph cs si fs).methods =
        [SimilarityMethod.hashExact, SimilarityMethod.hashPerceptual,
          SimilarityMethod.contentText, SimilarityMethod.imageStructural]) ∧
    (∀ (o : ImgOracle) (cfg : SimilarityConfig) (f1 f2 : FileDesc),
      calculateSimilarity o
          { cfg with methods :=
              cfg.methods.filter (fun m => m ≠ SimilarityMethod.hashExact) } f1 f2 =
        calculateSimilarity o cfg f1 f2) := by
  constructor
  · intro t ph cs si fs
    rfl
  · intro o cfg f1 f2
    unfold calculateSimilarity
    by_cases hsh : filesHaveSameHash f1 f2
    · simp [hsh]
    · simp only [hsh, Bool.false_eq_true, if_false]
      exact simLoop_filter_none _ _ _
        (by
          intro m hm
          cases m <;> simp_all [methodScore]) _ _

/-- C4 counterexample: with only `CONTENT_TEXT` configured, the overall
score of the text pair (`"ab"`, `"bacb"`) differs between the two
argument orders (`2/3` against `1/3`): `SequenceMatcher`'s greedy
longest-match selection depends on which sequence indexes `b2j`, so
`ratio()` is not symmetric. -/
theorem c4_symmetry_counterexample :
    calculateSimilarity trivOracle
        ⟨9/10, [SimilarityMethod.contentText], true, true, true, false⟩
        ⟨"x.txt", some [97, 98]⟩ ⟨"y.txt", some [98, 97, 99, 98]⟩ ≠
      calculateSimilarity trivOracle
        ⟨9/10, [SimilarityMethod.contentText], true, true, true, false⟩
        ⟨"y.txt", some [98, 97, 99, 98]⟩ ⟨"x.txt", some [97, 98]⟩ := by
  decide

/-- The Python running maximum agrees with the lattice maximum. -/
theorem pyMax_eq_max (a b : ℚ) : pyMax a b = max a b := by
  unfold pyMax
  rcases lt_or_ge a b with h | h
  · rw [if_pos h, max_eq_right h.le]
  · rw [if_neg (not_lt.mpr h), max_eq_left h]

/-- C4 (amended): the pairwise score is symmetric for the perceptual-hash
and binary-content methods; it is not symmetric for the
sequence-matcher-based text method — `ratio()`'s greedy longest-match
selection (and its autojunk heuristic) depend on the argument order — and
hence not symmetric overall. -/
theorem c4_symmetry_amended :
    (∀ (o : ImgOracle) (f1 f2 : FileDesc),
      perceptualHashSimilarity o f1 f2 = perceptualHashSimilarity o f2 f1) ∧
    (∀ f1 f2 : FileDesc,
      binaryContentSimilarity f1 f2 = binaryContentSimilarity f2 f1) := by
  constructor
  · intro o f1 f2
    unfold perceptualHashSimilarity
    by_cases hg : isImageFile f1.path = true ∧ isImageFile f2.path = true
    · rw [if_neg (not_not_intro hg), if_neg (not_not_intro ⟨hg.2, hg.1⟩)]
      cases o.pHash f1 <;> cases o.pHash f2 <;> simp [Nat.xor_comm]
    · rw [if_pos hg, if_pos fun hc => hg ⟨hc.2, hc.1⟩]
  · intro f1 f2
    unfold binaryContentSimilarity
    cases hc1 : f1.content with
    | none => cases hc2 : f2.content <;> rfl
    | some c1 =>
        cases hc2 : f2.content with
        | none => rfl
        | some c2 =>
            simp only []
            by_cases hlen : c1.length = c2.length
            · have hcnt : (c2.zip c1).countP (fun p => decide (p.1 = p.2)) =
                  (c1.zip c2).countP (fun p => decide (p.1 = p.2)) := by
                rw [← List.zip_swap c1 c2, List.countP_map]
                refine List.countP_congr ?_
                intro x _
                simp [Function.comp, eq_comm]
              rw [hcnt, hlen, if_neg (fun h : c2.length ≠ c2.length => h rfl),
                if_neg (fun h : c2.length ≠ c2.length => h rfl)]
            · rw [if_pos hlen, if_pos (Ne.symm hlen)]
              have hcnt : (List.range (min c2.length c1.length)).countP
                    (fun i => decide (c2.getD i 0 = c1.getD i 0)) =
                  (List.range (min c1.length c2.length)).countP
                    (fun i => decide (c1.getD i 0 = c2.getD i 0)) := by
                rw [min_comm c2.length c1.length]
                refine List.countP_congr ?_
                intro i _
                simp [eq_comm]
              rw [hcnt, sup_comm c2.length c1.length]

/-- Modelled from the spec: `_text_content_similarity` as the spec words
it, with invalid byte sequences *replaced* (U+FFFD) rather than dropped;
the source instead passes `errors='ignore'`. Identical to
`textContentSimilarity` in every other respect (gate, text-mode
newline translation, ratio). -/
def specTextSimilarity (f1 f2 : FileDesc) : ℚ :=
  if ¬ (isTextFile f1.path ∧ isTextFile f2.path) then 0
  else
    match f1.content, f2.content with
    | some c1, some c2 =>
        seqMatchScore (universalNewlines (specDecodeReplace c1))
          (universalNewlines (specDecodeReplace c2))
    | _, _ => 0

/-- C5 counterexample: on the byte files `[0xFF, 'a']` and `['a']`, the
source's `errors='ignore'` decode makes both files decode to `"a"` and
score `1.0`, while the replacement decode described by the claim yields
`"�a"` against `"a"` and scores `2/3` — the claim's reading disagrees
with the code. -/
theorem c5_text_replace_counterexample :
    textContentSimilarity ⟨"a.txt", some [255, 97]⟩ ⟨"b.txt", some [97]⟩ = 1 ∧
    specTextSimilarity ⟨"a.txt", some [255, 97]⟩ ⟨"b.txt", some [97]⟩ = 2 / 3 ∧
    textContentSimilarity ⟨"a.txt", some [255, 97]⟩ ⟨"b.txt", some [97]⟩ ≠
      specTextSimilarity ⟨"a.txt", some [255, 97]⟩ ⟨"b.txt", some [97]⟩ := by
  refine ⟨by decide, by decide, by decide⟩

/-- C5 (amended): for readable files with recognised text extensions the
ContentText score reads both byte strings in text mode — decode errors
*ignored* (malformed sequences dropped) and universal newlines translated
(`"\r\n"` and `"\r"` to `"\n"`) — and equals the two-sequence ratio
`2 * matches / (len(a) + len(b))` over the two resulting strings (`1.0`
when both are empty). -/
theorem c5_text_similarity_amended (f1 f2 : FileDesc) (c1 c2 : List Nat)
    (h1 : f1.content = some c1) (h2 : f2.content = some c2)
    (ht1 : isTextFile f1.path = true) (ht2 : isTextFile f2.path = true) :
    textContentSimilarity f1 f2 =
      if (universalNewlines (decodeIgnore c1)).length +
          (universalNewlines (decodeIgnore c2)).length = 0 then 1
      else 2 * (smMatches (universalNewlines (decodeIgnore c1))
            (universalNewlines (decodeIgnore c2)) : ℚ) /
        (((universalNewlines (decodeIgnore c1)).length +
          (universalNewlines (decodeIgnore c2)).length : Nat) : ℚ) := by
  unfold textContentSimilarity
  rw [if_neg (not_not_intro ⟨ht1, ht2⟩)]
  rw [h1, h2]
  rfl

/-- C5 amended-claim witness at the text files `"ab"` and `"a\r\nb"`
(the translated read scores them `4/5`, the source's `"\r\n"` pair
collapsing to a single `"\n"` before matching). -/
theorem c5_text_similarity_amended_witness :
    textContentSimilarity ⟨"a.txt", some [97, 98]⟩ ⟨"b.txt", some [97, 13, 10, 98]⟩ =
      if (universalNewlines (decodeIgnore [97, 98])).length +
          (universalNewlines (decodeIgnore [97, 13, 10, 98])).length = 0 then 1
      else 2 * (smMatches (universalNewlines (decodeIgnore [97, 98]))
            (universalNewlines (decodeIgnore [97, 13, 10, 98])) : ℚ) /
        (((universalNewlines (decodeIgnore [97, 98])).length +
          (universalNewlines (decodeIgnore [97, 13, 10, 98])).length : Nat) : ℚ) :=
  c5_text_similarity_amended ⟨"a.txt", some [97, 98]⟩ ⟨"b.txt", some [97, 13, 10, 98]⟩
    [97, 98] [97, 13, 10, 98] rfl rfl (by decide) (by decide)

/-- C7: the ContentBinary score is exactly the number of matching byte
positions over the common length divided by the (common or longer) length,
`1.0` for two empty equal-length files. -/
theorem c7_binary_score (f1 f2 : FileDesc) (c1 c2 : List Nat)
    (h1 : f1.content = some c1) (h2 : f2.content = some c2) :
    (c1.length = c2.length →
      binaryContentSimilarity f1 f2 =
        if c1.length = 0 then 1
        else (((Finset.range c1.length).filter
            fun i => c1.getD i 0 = c2.getD i 0).card : ℚ) / (c1.length : ℚ)) ∧
    (c1.length ≠ c2.length →
      binaryContentSimilarity f1 f2 =
        (((Finset.range (min c1.length c2.length)).filter
            fun i => c1.getD i 0 = c2.getD i 0).card : ℚ) /
          ((max c1.length c2.length : Nat) : ℚ)) := by
  constructor
  · intro hlen
    unfold binaryContentSimilarity
    rw [h1, h2]
    simp only [if_neg (by omega : ¬ c1.length ≠ c2.length)]
    by_cases h0 : c1.length = 0
    · rw [if_pos h0, if_pos h0]
    · rw [if_neg h0, if_neg h0,
        List.countP_eq_length_filter, ← List.countP_eq_length_filter,
        zip_countP_eq_range c1 c2 hlen, card_filter_range]
  · intro hlen
    unfold binaryContentSimilarity
    rw [h1, h2]
    simp only [if_pos hlen]
    rw [if_neg (by omega : ¬ max c1.length c2.length = 0), card_filter_range]

/-- C7 witness: equal-length byte files with two of three positions
matching score `2/3`. -/
theorem c7_binary_score_witness :
    binaryContentSimilarity ⟨"a.bin", some [1, 2, 3]⟩ ⟨"b.bin", some [1, 9, 3]⟩ =
      if ([1, 2, 3] : List Nat).length = 0 then 1
      else (((Finset.range ([1, 2, 3] : List Nat).length).filter
          fun i => ([1, 2, 3] : List Nat).getD i 0 = ([1, 9, 3] : List Nat).getD i 0).card : ℚ) /
        ((([1, 2, 3] : List Nat).length : Nat) : ℚ) :=
  (c7_binary_score ⟨"a.bin", some [1, 2, 3]⟩ ⟨"b.bin", some [1, 9, 3]⟩
    [1, 2, 3] [1, 9, 3] rfl rfl).1 rfl

/-- C6: with threshold below 1.0 and pairwise-distinct paths, three files
where B and C each clear the threshold against A but not against each
other are emitted as the single group `group_0 = [A, B, C]`: membership is
decided solely against the anchor A. -/
theorem c6_anchor_nontransitive (o : ImgOracle) (cfg : SimilarityConfig)
    (A B C : FileDesc) (ht : cfg.threshold < 1)
    (hAB : cfg.threshold ≤ calculateSimilarity o cfg A B)
    (hAC : cfg.threshold ≤ calculateSimilarity o cfg A C)
    (hBC : calculateSimilarity o cfg B C < cfg.threshold)
    (hab : A.path ≠ B.path) (hac : A.path ≠ C.path) (hbc : B.path ≠ C.path) :
    findSimilarFiles o cfg [A, B, C] = [("group_0", [A, B, C])] := by
  unfold findSimilarFiles
  rw [if_neg (not_le.mpr ht)]
  simp only [clusterLoop, groupScan, hAB, hAC, Ne.symm hab, Ne.symm hac, Ne.symm hbc]
  simp [clusterLoop, groupScan, hAB, hAC, Ne.symm hab, Ne.symm hac, Ne.symm hbc]
  decide

/-- C6 witness: three text files `"abcd"`, `"abcx"`, `"ybcd"` at threshold
`0.7` (pairwise text scores `0.75`, `0.75`, `0.5`). -/
theorem c6_anchor_nontransitive_witness :
    findSimilarFiles trivOracle
        ⟨7/10, [SimilarityMethod.contentText], true, true, true, false⟩
        [⟨"a.txt", some [97, 98, 99, 100]⟩, ⟨"b.txt", some [97, 98, 99, 120]⟩,
          ⟨"c.txt", some [121, 98, 99, 100]⟩] =
      [("group_0", [⟨"a.txt", some [97, 98, 99, 100]⟩,
        ⟨"b.txt", some [97, 98, 99, 120]⟩, ⟨"c.txt", some [121, 98, 99, 100]⟩])] :=
  c6_anchor_nontransitive trivOracle
    ⟨7/10, [SimilarityMethod.contentText], true, true, true, false⟩
    ⟨"a.txt", some [97, 98, 99, 100]⟩ ⟨"b.txt", some [97, 98, 99, 120]⟩
    ⟨"c.txt", some [121, 98, 99, 100]⟩
    (by decide) (by decide) (by decide) (by decide) (by decide) (by decide) (by decide)

/-! ## The early exit is invisible in the grouping (C9) -/

/-- The accumulator only grows along the full loop. -/
theorem simLoopFull_acc_le (score : SimilarityMethod → Option ℚ) :
    ∀ (ms : List SimilarityMethod) (acc : ℚ), acc ≤ simLoopFull score ms acc := by
  intro ms
  induction ms with
  | nil => intro acc; exact le_refl acc
  | cons m rest ih =>
      intro acc
      cases hs : score m with
      | none => simpa [simLoopFull, hs] using ih acc
      | some s =>
          simp only [simLoopFull, hs]
          exact le_trans (by rw [pyMax_eq_max]; exact le_max_left acc s) (ih (pyMax acc s))

/-- The early-exiting loop never exceeds the full loop. -/
theorem simLoop_le_full (score : SimilarityMethod → Option ℚ) (t : ℚ) :
    ∀ (ms : List SimilarityMethod) (acc : ℚ),
      simLoop score t ms acc ≤ simLoopFull score ms acc := by
  intro ms
  induction ms with
  | nil => intro acc; exact le_refl acc
  | cons m rest ih =>
      intro acc
      cases hs : score m with
      | none => simp only [simLoop, simLoopFull, hs]; exact ih acc
      | some s =>
          simp only [simLoop, simLoopFull, hs]
          by_cases hts : t ≤ pyMax acc s
          · rw [if_pos hts]
            exact simLoopFull_acc_le score rest (pyMax acc s)
          · rw [if_neg hts]
            exact ih (pyMax acc s)

/-- Below the threshold the early exit never fired, so both loops agree. -/
theorem simLoop_lt_eq_full (score : SimilarityMethod → Option ℚ) (t : ℚ) :
    ∀ (ms : List SimilarityMethod) (acc : ℚ),
      simLoop score t ms acc < t → simLoop score t ms acc = simLoopFull score ms acc := by
  intro ms
  induction ms with
  | nil => intro acc _; rfl
  | cons m rest ih =>
      intro acc hlt
      cases hs : score m with
      | none =>
          simp only [simLoop, simLoopFull, hs] at hlt ⊢
          exact ih acc hlt
      | some s =>
          simp only [simLoop, simLoopFull, hs] at hlt ⊢
          by_cases hts : t ≤ pyMax acc s
          · rw [if_pos hts] at hlt
            exact absurd hts (not_le.mpr hlt)
          · rw [if_neg hts] at hlt ⊢
            exact ih (pyMax acc s) hlt

/-- Clearing the threshold is the same question for both loops. -/
theorem simLoop_ge_iff (score : SimilarityMethod → Option ℚ) (t : ℚ)
    (ms : List SimilarityMethod) (acc : ℚ) :
    t ≤ simLoop score t ms acc ↔ t ≤ simLoopFull score ms acc := by
  constructor
  · intro h
    exact le_trans h (simLoop_le_full score t ms acc)
  · intro h
    by_contra hc
    rw [simLoop_lt_eq_full score t ms acc (not_le.mp hc)] at hc
    exact hc h

/-- The membership test agrees between the early-exit scorer and the
full-evaluation scorer. -/
theorem calcSim_ge_iff (o : ImgOracle) (cfg : SimilarityConfig) (f1 f2 : FileDesc) :
    (cfg.threshold ≤ calculateSimilarity o cfg f1 f2 ↔
      cfg.threshold ≤ calculateSimilarityFull o cfg f1 f2) := by
  unfold calculateSimilarity calculateSimilarityFull
  by_cases hsh : filesHaveSameHash f1 f2
  · simp [hsh]
  · simp only [hsh, Bool.false_eq_true, if_false]
    exact simLoop_ge_iff _ _ _ _

/-- Scorers that agree on the threshold test produce the same inner scan. -/
theorem groupScan_congr (s1 s2 : FileDesc → FileDesc → ℚ) (t : ℚ) (anchor : FileDesc)
    (hcong : ∀ f g, (t ≤ s1 f g ↔ t ≤ s2 f g)) :
    ∀ (rest : List FileDesc) (assigned : List String),
      groupScan s1 t anchor rest assigned = groupScan s2 t anchor rest assigned := by
  intro rest
  induction rest with
  | nil => intro assigned; rfl
  | cons f2 rest ih =>
      intro assigned
      simp only [groupScan]
      by_cases hmem : f2.path ∈ assigned
      · rw [if_pos hmem, if_pos hmem, ih assigned]
      · rw [if_neg hmem, if_neg hmem]
        by_cases hsc : t ≤ s1 anchor f2
        · rw [if_pos hsc, if_pos ((hcong anchor f2).mp hsc), ih (f2.path :: assigned)]
        · rw [if_neg hsc, if_neg fun hc => hsc ((hcong anchor f2).mpr hc), ih assigned]

/-- Scorers that agree on the threshold test produce the same grouping. -/
theorem clusterLoop_congr (s1 s2 : FileDesc → FileDesc → ℚ) (t : ℚ)
    (hcong : ∀ f g, (t ≤ s1 f g ↔ t ≤ s2 f g)) :
    ∀ (files : List FileDesc) (i : Nat) (assigned : List String),
      clusterLoop s1 t files i assigned = clusterLoop s2 t files i assigned := by
  intro files
  induction files with
  | nil => intro i assigned; rfl
  | cons f1 rest ih =>
      intro i assigned
      simp only [clusterLoop]
      by_cases hmem : f1.path ∈ assigned
      · rw [if_pos hmem, if_pos hmem, ih (i + 1) assigned]
      · rw [if_neg hmem, if_neg hmem,
          groupScan_congr s1 s2 t f1 hcong rest (f1.path :: assigned), ih (i + 1)]

/-- `find_similar_files` with the early exit removed from the scorer. -/
def findSimilarFilesFull (o : ImgOracle) (cfg : SimilarityConfig)
    (files : List FileDesc) : List (String × List FileDesc) :=
  if 1 ≤ cfg.threshold then
    (findExactDuplicates files).map fun e => (toString e.1, e.2)
  else clusterLoop (calculateSimilarityFull o cfg) cfg.threshold files 0 []

/-- C9: early exit is a pure optimisation — the grouping with the
early-exit `break` equals the grouping with every configured method
evaluated, for every oracle, configuration and input list. -/
theorem c9_early_exit_equiv (o : ImgOracle) (cfg : SimilarityConfig)
    (files : List FileDesc) :
    findSimilarFiles o cfg files = findSimilarFilesFull o cfg files := by
  unfold findSimilarFiles findSimilarFilesFull
  by_cases hth : 1 ≤ cfg.threshold
  · rw [if_pos hth, if_pos hth]
  · rw [if_neg hth, if_neg hth]
    exact clusterLoop_congr _ _ _ (calcSim_ge_iff o cfg) files 0 []

/-! ## Structure of the emitted groups (C10) -/

/-- The members collected by the inner scan are a sublist of the scanned
suffix. -/
theorem groupScan_fst_sublist (s : FileDesc → FileDesc → ℚ) (t : ℚ) (anchor : FileDesc) :
    ∀ (rest : List FileDesc) (assigned : List String),
      (groupScan s t anchor rest assigned).1.Sublist rest := by
  intro rest
  induction rest with
  | nil => intro assigned; simp [groupScan]
  | cons f2 rest ih =>
      intro assigned
      simp only [groupScan]
      by_cases hmem : f2.path ∈ assigned
      · rw [if_pos hmem]
        exact (ih assigned).cons f2
      · rw [if_neg hmem]
        by_cases hsc : t ≤ s anchor f2
        · rw [if_pos hsc]
          exact (ih (f2.path :: assigned)).cons₂ f2
        · rw [if_neg hsc]
          exact (ih assigned).cons f2

/-- Every group emitted by the clustering loop is anchored at some index
`d` of the scanned suffix: key `group_<i+d>`, head `rest[d]`, members a
sublist of the suffix from `d`, and at least two members. -/
theorem clusterLoop_structure (s : FileDesc → FileDesc → ℚ) (t : ℚ) :
    ∀ (rest : List FileDesc) (i : Nat) (assigned : List String),
      ∀ kg ∈ clusterLoop s t rest i assigned,
        ∃ d, d < rest.length ∧ kg.1 = "group_" ++ toString (i + d) ∧
          kg.2.head? = rest[d]? ∧ kg.2.Sublist (rest.drop d) ∧ 2 ≤ kg.2.length := by
  intro rest
  induction rest with
  | nil => intro i assigned kg hkg; simp [clusterLoop] at hkg
  | cons f1 rest ih =>
      intro i assigned kg hkg
      simp only [clusterLoop] at hkg
      by_cases hmem : f1.path ∈ assigned
      · rw [if_pos hmem] at hkg
        obtain ⟨d, hd, hk, hh, hs, hl⟩ := ih (i + 1) assigned kg hkg
        refine ⟨d + 1, by simpa using Nat.succ_lt_succ hd, ?_, ?_, ?_, hl⟩
        · rw [hk, show i + 1 + d = i + (d + 1) from by omega]
        · simpa using hh
        · simpa using hs
      · rw [if_neg hmem] at hkg
        by_cases hglen : 1 < (f1 :: (groupScan s t f1 rest (f1.path :: assigned)).1).length
        · rw [if_pos hglen] at hkg
          rcases List.mem_cons.mp hkg with hkg | hkg
          · subst hkg
            refine ⟨0, by simp, by rw [Nat.add_zero], by simp, ?_, by simpa using hglen⟩
            simpa using (groupScan_fst_sublist s t f1 rest (f1.path :: assigned)).cons₂ f1
          · obtain ⟨d, hd, hk, hh, hs, hl⟩ := ih (i + 1) _ kg hkg
            refine ⟨d + 1, by simpa using Nat.succ_lt_succ hd, ?_, ?_, ?_, hl⟩
            · rw [hk, show i + 1 + d = i + (d + 1) from by omega]
            · simpa using hh
            · simpa using hs
        · rw [if_neg hglen] at hkg
          obtain ⟨d, hd, hk, hh, hs, hl⟩ := ih (i + 1) _ kg hkg
          refine ⟨d + 1, by simpa using Nat.succ_lt_succ hd, ?_, ?_, ?_, hl⟩
          · rw [hk, show i + 1 + d = i + (d + 1) from by omega]
          · simpa using hh
          · simpa using hs

/-- C10: below threshold 1.0, every emitted group is keyed
`group_<i>` by the zero-based input index `i` of its anchor, its first
element is that anchor `files[i]`, its remaining members keep the input
order (the whole group is a sublist of the input from `i` on), and it has
at least two members. -/
theorem c10_group_structure (o : ImgOracle) (cfg : SimilarityConfig)
    (files : List FileDesc) (ht : cfg.threshold < 1) :
    ∀ kg ∈ findSimilarFiles o cfg files,
      ∃ i, i < files.length ∧ kg.1 = "group_" ++ toString i ∧
        kg.2.head? = files[i]? ∧ kg.2.Sublist (files.drop i) ∧ 2 ≤ kg.2.length := by
  intro kg hkg
  unfold findSimilarFiles at hkg
  rw [if_neg (not_le.mpr ht)] at hkg
  obtain ⟨d, hd, hk, hh, hs, hl⟩ :=
    clusterLoop_structure (calculateSimilarity o cfg) cfg.threshold files 0 [] kg hkg
  exact ⟨d, hd, by rwa [Nat.zero_add] at hk, hh, hs, hl⟩

/-- C10 witness at two similar text files grouped as `group_0`. -/
theorem c10_group_structure_witness :
    ∃ i, i < ([(⟨"a.txt", some [97, 97, 97, 97]⟩ : FileDesc),
        ⟨"c.txt", some [97, 97, 97, 98]⟩] : List FileDesc).length ∧
      ("group_0" : String) = "group_" ++ toString i ∧
      ([(⟨"a.txt", some [97, 97, 97, 97]⟩ : FileDesc),
        ⟨"c.txt", some [97, 97, 97, 98]⟩] : List FileDesc).head? =
        ([(⟨"a.txt", some [97, 97, 97, 97]⟩ : FileDesc),
          ⟨"c.txt", some [97, 97, 97, 98]⟩] : List FileDesc)[i]? ∧
      ([(⟨"a.txt", some [97, 97, 97, 97]⟩ : FileDesc),
        ⟨"c.txt", some [97, 97, 97, 98]⟩] : List FileDesc).Sublist
        (([(⟨"a.txt", some [97, 97, 97, 97]⟩ : FileDesc),
          ⟨"c.txt", some [97, 97, 97, 98]⟩] : List FileDesc).drop i) ∧
      2 ≤ ([(⟨"a.txt", some [97, 97, 97, 97]⟩ : FileDesc),
        ⟨"c.txt", some [97, 97, 97, 98]⟩] : List FileDesc).length :=
  c10_group_structure trivOracle
    ⟨7/10, [SimilarityMethod.contentText], true, true, true, false⟩
    [⟨"a.txt", some [97, 97, 97, 97]⟩, ⟨"c.txt", some [97, 97, 97, 98]⟩]
    (by decide)
    ("group_0", [⟨"a.txt", some [97, 97, 97, 97]⟩, ⟨"c.txt", some [97, 97, 97, 98]⟩])
    (by decide)

/-! ## Failure containment (C8) -/

/-- The first argument never exceeds the Python running maximum. -/
theorem le_pyMax_left (a b : ℚ) : a ≤ pyMax a b := by
  unfold pyMax
  by_cases h : a < b
  · rw [if_pos h]; exact h.le
  · rw [if_neg h]

/-- The loop over possibly-raising methods never lets a raise escape: it
returns exactly the pure loop over the caught scores. -/
theorem simLoopE_ok (score : SimilarityMethod → Option (Except Unit ℚ)) (t : ℚ) :
    ∀ (ms : List SimilarityMethod) (m : ℚ),
      simLoopE score t ms m = Except.ok (simLoop (catchScore score) t ms m) := by
  intro ms
  induction ms with
  | nil => intro m; rfl
  | cons meth rest ih =>
      intro m
      cases hs : score meth with
      | none => simp [simLoopE, simLoop, catchScore, hs, ih m]
      | some r =>
          cases r with
          | error e => simp [simLoopE, simLoop, catchScore, hs, ih m]
          | ok s =>
              simp only [simLoopE, simLoop, catchScore, hs]
              by_cases hts : t ≤ pyMax m s
              · rw [if_pos hts, if_pos hts]
              · rw [if_neg hts, if_neg hts, ih (pyMax m s)]

/-- Below the threshold and with a nonnegative accumulator, a raising
method behaves exactly like one scoring `0.0`: the maximum is unchanged
and evaluation continues with the remaining methods. -/
theorem simLoopE_errToZero (score : SimilarityMethod → Option (Except Unit ℚ)) (t : ℚ) :
    ∀ (ms : List SimilarityMethod) (m : ℚ), 0 ≤ m → m < t →
      simLoopE score t ms m = simLoopE (errToZeroM score) t ms m := by
  intro ms
  induction ms with
  | nil => intro m _ _; rfl
  | cons meth rest ih =>
      intro m hm0 hmt
      cases hs : score meth with
      | none =>
          simp only [simLoopE, errToZeroM, hs]
          exact ih m hm0 hmt
      | some r =>
          cases r with
          | error e =>
              simp only [simLoopE, errToZeroM, hs]
              have hmax : pyMax m 0 = m := by
                unfold pyMax
                rw [if_neg (not_lt.mpr hm0)]
              rw [hmax, if_neg (not_le.mpr hmt)]
              exact ih m hm0 hmt
          | ok s =>
              simp only [simLoopE, errToZeroM, hs]
              by_cases hts : t ≤ pyMax m s
              · rw [if_pos hts, if_pos hts]
              · rw [if_neg hts, if_neg hts]
                exact ih (pyMax m s) (le_trans hm0 (le_pyMax_left m s)) (not_le.mp hts)

/-- The inner scan in the exception monad collapses to the pure scan when
the scorer never raises. -/
theorem groupScanE_ok (scorerE : FileDesc → FileDesc → Except Unit ℚ)
    (scorer : FileDesc → FileDesc → ℚ)
    (hok : ∀ f g, scorerE f g = Except.ok (scorer f g)) (t : ℚ) (anchor : FileDesc) :
    ∀ (rest : List FileDesc) (assigned : List String),
      groupScanE scorerE t anchor rest assigned =
        Except.ok (groupScan scorer t anchor rest assigned) := by
  intro rest
  induction rest with
  | nil => intro assigned; rfl
  | cons f2 rest ih =>
      intro assigned
      simp only [groupScanE, groupScan, hok anchor f2]
      by_cases hmem : f2.path ∈ assigned
      · rw [if_pos hmem, if_pos hmem, ih assigned]
      · rw [if_neg hmem, if_neg hmem]
        by_cases hsc : t ≤ scorer anchor f2
        · rw [if_pos hsc, if_pos hsc, ih (f2.path :: assigned)]
        · rw [if_neg hsc, if_neg hsc, ih assigned]

/-- The clustering loop in the exception monad collapses to the pure loop
when the scorer never raises. -/
theorem clusterLoopE_ok (scorerE : FileDesc → FileDesc → Except Unit ℚ)
    (scorer : FileDesc → FileDesc → ℚ)
    (hok : ∀ f g, scorerE f g = Except.ok (scorer f g)) (t : ℚ) :
    ∀ (files : List FileDesc) (i : Nat) (assigned : List String),
      clusterLoopE scorerE t files i assigned =
        Except.ok (clusterLoop scorer t files i assigned) := by
  intro files
  induction files with
  | nil => intro i assigned; rfl
  | cons f1 rest ih =>
      intro i assigned
      simp only [clusterLoopE, clusterLoop]
      by_cases hmem : f1.path ∈ assigned
      · rw [if_pos hmem, if_pos hmem, ih (i + 1) assigned]
      · rw [if_neg hmem, if_neg hmem,
          groupScanE_ok scorerE scorer hok t f1 rest (f1.path :: assigned)]
        dsimp only
        by_cases hglen : 1 < (f1 :: (groupScan scorer t f1 rest (f1.path :: assigned)).1).length
        · rw [if_pos hglen, if_pos hglen, ih (i + 1) _]
        · rw [if_neg hglen, if_neg hglen, ih (i + 1) _]

/-- `_calculate_similarity` over an abstract raising family never raises. -/
theorem calcSimFamE_ok
    (se : FileDesc → FileDesc → SimilarityMethod → Option (Except Unit ℚ))
    (t : ℚ) (ms : List SimilarityMethod) (f1 f2 : FileDesc) :
    calcSimFamE se t ms f1 f2 = Except.ok (calcSimFamCaught se t ms f1 f2) := by
  unfold calcSimFamE calcSimFamCaught
  by_cases hsh : filesHaveSameHash f1 f2
  · rw [if_pos hsh, if_pos hsh]
  · rw [if_neg hsh, if_neg hsh, simLoopE_ok]

/-- A member of a bucket after `bucketAdd` was already in a bucket or is
the file just added. -/
theorem bucketAdd_mem_file :
    ∀ (acc : List (List Nat × List FileDesc)) (h : List Nat) (f x : FileDesc)
      (e : List Nat × List FileDesc), e ∈ bucketAdd acc h f → x ∈ e.2 →
      (∃ e' ∈ acc, x ∈ e'.2) ∨ x = f := by
  intro acc
  induction acc with
  | nil =>
      intro h f x e he hx
      simp only [bucketAdd, List.mem_singleton] at he
      subst he
      simp only [List.mem_singleton] at hx
      exact Or.inr hx
  | cons e0 rest ih =>
      intro h f x e he hx
      obtain ⟨h0, g0⟩ := e0
      simp only [bucketAdd] at he
      by_cases heq : h0 = h
      · rw [if_pos heq] at he
        rcases List.mem_cons.mp he with he | he
        · subst he
          simp only [List.mem_append, List.mem_singleton] at hx
          rcases hx with hx | hx
          · exact Or.inl ⟨(h0, g0), List.mem_cons_self _ _, hx⟩
          · exact Or.inr hx
        · exact Or.inl ⟨e, List.mem_cons_of_mem _ he, hx⟩
      · rw [if_neg heq] at he
        rcases List.mem_cons.mp he with he | he
        · subst he
          exact Or.inl ⟨(h0, g0), List.mem_cons_self _ _, hx⟩
        · rcases ih h f x e he hx with ⟨e', he', hx'⟩ | hx'
          · exact Or.inl ⟨e', List.mem_cons_of_mem _ he', hx'⟩
          · exact Or.inr hx'

/-- Every file placed in a hash bucket had a readable content. -/
theorem buildHashDict_content :
    ∀ (files : List FileDesc) (acc : List (List Nat × List FileDesc)),
      (∀ e ∈ acc, ∀ x ∈ e.2, x.content ≠ none) →
      ∀ e ∈ buildHashDict files acc, ∀ x ∈ e.2, x.content ≠ none := by
  intro files
  induction files with
  | nil => intro acc hacc; exact hacc
  | cons f rest ih =>
      intro acc hacc
      cases hc : getFileHash f with
      | none => simpa [buildHashDict, hc] using ih acc hacc
      | some h =>
          simp only [buildHashDict, hc]
          refine ih (bucketAdd acc h f) ?_
          intro e he x hx
          rcases bucketAdd_mem_file acc h f x e he hx with ⟨e', he', hx'⟩ | hx'
          · exact hacc e' he' x hx'
          · subst hx'
            intro hn
            rw [show getFileHash x = x.content from rfl, hn] at hc
            cases hc

/-- C8: (a) a per-method raise is caught at the method boundary and is
equivalent (at a positive threshold) to that method scoring `0.0`, with
evaluation continuing; (b) the engine in the exception monad always
returns a result — no raise of any method family escapes
`find_similar_files`; (c) files whose hash cannot be read appear in no
exact-duplicate group. -/
theorem c8_failure_containment :
    (∀ (se : FileDesc → FileDesc → SimilarityMethod → Option (Except Unit ℚ))
      (t : ℚ) (ms : List SimilarityMethod) (f1 f2 : FileDesc), 0 < t →
      calcSimFamE se t ms f1 f2 = calcSimFamE (errToZero se) t ms f1 f2) ∧
    (∀ (se : FileDesc → FileDesc → SimilarityMethod → Option (Except Unit ℚ))
      (t : ℚ) (ms : List SimilarityMethod) (files : List FileDesc),
      findSimilarFilesE se t ms files =
        Except.ok (findSimilarFilesCaught se t ms files)) ∧
    (∀ (files : List FileDesc) (f : FileDesc), f.content = none →
      ∀ e ∈ findExactDuplicates files, f ∉ e.2) := by
  refine ⟨?_, ?_, ?_⟩
  · intro se t ms f1 f2 ht
    unfold calcSimFamE
    by_cases hsh : filesHaveSameHash f1 f2
    · rw [if_pos hsh, if_pos hsh]
    · rw [if_neg hsh, if_neg hsh]
      exact simLoopE_errToZero (se f1 f2) t ms 0 (le_refl 0) ht
  · intro se t ms files
    unfold findSimilarFilesE findSimilarFilesCaught
    by_cases hth : 1 ≤ t
    · rw [if_pos hth, if_pos hth]
    · rw [if_neg hth, if_neg hth]
      exact clusterLoopE_ok _ _ (calcSimFamE_ok se t ms) t files 0 []
  · intro files f hf e he hmem
    have := buildHashDict_content files [] (by intro e' he'; cases he') e
      (List.mem_filter.mp he).1 f hmem
    exact this hf

/-- The always-raising method family, for the C8 witness. -/
def seAllRaise : FileDesc → FileDesc → SimilarityMethod → Option (Except Unit ℚ) :=
  fun _ _ _ => some (Except.error ())

/-- C8 witness: the always-raising family at threshold `1/2` on two text
files, and an unreadable file kept out of the one exact group. -/
theorem c8_failure_containment_witness :
    (calcSimFamE seAllRaise (1/2) [SimilarityMethod.contentText]
        ⟨"a.txt", some [97, 98]⟩ ⟨"b.txt", some [97, 99]⟩ =
      calcSimFamE (errToZero seAllRaise) (1/2) [SimilarityMethod.contentText]
        ⟨"a.txt", some [97, 98]⟩ ⟨"b.txt", some [97, 99]⟩) ∧
    (findSimilarFilesE seAllRaise (1/2) [SimilarityMethod.contentText]
        [⟨"a.txt", some [97, 98]⟩, ⟨"b.txt", some [97, 99]⟩] =
      Except.ok (findSimilarFilesCaught seAllRaise (1/2) [SimilarityMethod.contentText]
        [⟨"a.txt", some [97, 98]⟩, ⟨"b.txt", some [97, 99]⟩])) ∧
    (⟨"u.txt", none⟩ : FileDesc) ∉
      (([97, 97, 97, 97], [⟨"a.txt", some [97, 97, 97, 97]⟩,
        ⟨"b.txt", some [97, 97, 97, 97]⟩]) : List Nat × List FileDesc).2 :=
  ⟨c8_failure_containment.1 seAllRaise (1/2) [SimilarityMethod.contentText]
      ⟨"a.txt", some [97, 98]⟩ ⟨"b.txt", some [97, 99]⟩ (by decide),
   c8_failure_containment.2.1 seAllRaise (1/2) [SimilarityMethod.contentText]
      [⟨"a.txt", some [97, 98]⟩, ⟨"b.txt", some [97, 99]⟩],
   c8_failure_containment.2.2
      [⟨"u.txt", none⟩, ⟨"a.txt", some [97, 97, 97, 97]⟩, ⟨"b.txt", some [97, 97, 97, 97]⟩]
      ⟨"u.txt", none⟩ rfl
      ([97, 97, 97, 97], [⟨"a.txt", some [97, 97, 97, 97]⟩, ⟨"b.txt", some [97, 97, 97, 97]⟩])
      (by decide)⟩

/-! ## The explanation mechanism (C3) -/

/-- The entry a single method contributes to the explanation: its labelled
percentage when it is configured, enabled and clears the threshold --
`HASH_EXACT` and `CONTENT_BINARY` have no branch and contribute nothing. -/
def explainEntry (o : ImgOracle) (cfg : SimilarityConfig) (f1 f2 : FileDesc) :
    SimilarityMethod → Option String
  | SimilarityMethod.hashPerceptual =>
      if cfg.enablePerceptualHash then
        if cfg.threshold ≤ perceptualHashSimilarity o f1 f2 then
          some ("Visual similarity: " ++ fmtPercent (perceptualHashSimilarity o f1 f2))
        else none
      else none
  | SimilarityMethod.contentText =>
      if cfg.enableContentSimilarity then
        if cfg.threshold ≤ textContentSimilarity f1 f2 then
          some ("Text content similarity: " ++ fmtPercent (textContentSimilarity f1 f2))
        else none
      else none
  | SimilarityMethod.imageStructural =>
      if cfg.enableImageSimilarity then
        if cfg.threshold ≤ imageStructuralSimilarity o f1 f2 then
          some ("Image structure similarity: " ++ fmtPercent (imageStructuralSimilarity o f1 f2))
        else none
      else none
  | SimilarityMethod.filenameFuzzy =>
      if cfg.enableFilenameSimilarity then
        if cfg.threshold ≤ filenameSimilarity f1 f2 then
          some ("Filename similarity: " ++ fmtPercent (filenameSimilarity f1 f2))
        else none
      else none
  | _ => none

/-- The explanation loop collects exactly the per-method entries, in
method order. -/
theorem explainLoop_eq_filterMap (o : ImgOracle) (cfg : SimilarityConfig)
    (f1 f2 : FileDesc) :
    ∀ (ms : List SimilarityMethod) (acc : List String),
      explainLoop o cfg f1 f2 ms acc = acc ++ ms.filterMap (explainEntry o cfg f1 f2) := by
  intro ms
  induction ms with
  | nil => intro acc; simp [explainLoop]
  | cons m rest ih =>
      intro acc
      cases m <;> simp only [explainLoop, explainEntry, List.filterMap_cons] <;>
        (try split_ifs) <;> simp [ih]

/-- `get_similarity_explanation` characterised: the same-hash fast path,
otherwise the collected entries joined with `"; "`, or the fallback when
no method qualifies. -/
theorem getSimilarityExplanation_eq (o : ImgOracle) (cfg : SimilarityConfig)
    (f1 f2 : FileDesc) :
    getSimilarityExplanation o cfg f1 f2 =
      if filesHaveSameHash f1 f2 then "Identical content (same hash)"
      else if cfg.methods.filterMap (explainEntry o cfg f1 f2) = [] then "Unknown similarity"
      else String.intercalate "; " (cfg.methods.filterMap (explainEntry o cfg f1 f2)) := by
  unfold getSimilarityExplanation
  by_cases hsh : filesHaveSameHash f1 f2
  · rw [if_pos hsh, if_pos hsh]
  · rw [if_neg hsh, if_neg hsh, explainLoop_eq_filterMap o cfg f1 f2 cfg.methods []]
    rfl

/-- Entries vanishing on filtered-out elements make the filter invisible. -/
theorem filterMap_filter_none {α β : Type} (p : α → Bool) (f : α → Option β)
    (hp : ∀ a, p a = false → f a = none) :
    ∀ l : List α, (l.filter p).filterMap f = l.filterMap f := by
  intro l
  induction l with
  | nil => rfl
  | cons a rest ih =>
      by_cases ha : p a = true
      · rw [List.filter_cons_of_pos ha, List.filterMap_cons, List.filterMap_cons, ih]
      · have ha' : p a = false := by revert ha; cases p a <;> simp
        rw [List.filter_cons_of_neg (by simp [ha']), List.filterMap_cons,
          hp a ha', ih]

/-- C3 (amended): the explanation re-runs only the methods
`{PerceptualHash, ContentText, ImageStructural, FilenameFuzzy}` that are
configured and enabled (ContentBinary is never re-run — removing it from
the methods list never changes the explanation), collects
`"<label>: <percentage>"` for every such method scoring at or above the
threshold, joins with `"; "`, and falls back to `"Unknown similarity"`. -/
theorem c3_explanation_amended :
    (∀ (o : ImgOracle) (cfg : SimilarityConfig) (f1 f2 : FileDesc),
      getSimilarityExplanation o cfg f1 f2 =
        if filesHaveSameHash f1 f2 then "Identical content (same hash)"
        else if cfg.methods.filterMap (explainEntry o cfg f1 f2) = [] then "Unknown similarity"
        else String.intercalate "; " (cfg.methods.filterMap (explainEntry o cfg f1 f2))) ∧
    (∀ (o : ImgOracle) (cfg : SimilarityConfig) (f1 f2 : FileDesc),
      getSimilarityExplanation o
          { cfg with methods :=
              cfg.methods.filter (fun m => m ≠ SimilarityMethod.contentBinary) } f1 f2 =
        getSimilarityExplanation o cfg f1 f2) := by
  refine ⟨getSimilarityExplanation_eq, ?_⟩
  intro o cfg f1 f2
  rw [getSimilarityExplanation_eq, getSimilarityExplanation_eq]
  have hentry : explainEntry o
      { cfg with methods := cfg.methods.filter (fun m => m ≠ SimilarityMethod.contentBinary) }
        f1 f2 = explainEntry o cfg f1 f2 := by
    funext m
    cases m <;> rfl
  rw [hentry]
  rw [filterMap_filter_none _ _ (by
    intro m hm
    cases m <;> simp_all [explainEntry]) cfg.methods]

/-- C3 counterexample: with `methods = [CONTENT_BINARY]`, content
similarity enabled, distinct contents and a binary score meeting the
threshold, the explanation is still the no-method-qualifies fallback
`"Unknown similarity"` — the explanation never re-runs ContentBinary. -/
theorem c3_explanation_counterexample :
    SimilarityMethod.contentBinary ∈
      ((⟨1/2, [SimilarityMethod.contentBinary], true, true, true, false⟩ :
        SimilarityConfig)).methods ∧
    ((⟨1/2, [SimilarityMethod.contentBinary], true, true, true, false⟩ :
        SimilarityConfig)).enableContentSimilarity = true ∧
    filesHaveSameHash ⟨"a.bin", some [0, 1]⟩ ⟨"b.bin", some [0, 2]⟩ = false ∧
    ((⟨1/2, [SimilarityMethod.contentBinary], true, true, true, false⟩ :
        SimilarityConfig)).threshold ≤
      binaryContentSimilarity ⟨"a.bin", some [0, 1]⟩ ⟨"b.bin", some [0, 2]⟩ ∧
    getSimilarityExplanation trivOracle
        ⟨1/2, [SimilarityMethod.contentBinary], true, true, true, false⟩
        ⟨"a.bin", some [0, 1]⟩ ⟨"b.bin", some [0, 2]⟩ = "Unknown similarity" := by
  refine ⟨by decide, by decide, by decide, by decide, by decide⟩

/-! ## The merged-output partition claim (C1) -/

/-- C1 counterexample: two byte-identical text files plus a third file
similar to the first. `scan_directory` keeps the representative `a.txt` in
the similarity input, so the identifier `a.txt` appears in the exact group
`group_0` and again in the near-duplicate group `group_1`. -/
theorem c1_partition_counterexample :
    scanMerge trivOracle true (7/10) true true true false
        [⟨"a.txt", some [97, 97, 97, 97]⟩, ⟨"b.txt", some [97, 97, 97, 97]⟩,
          ⟨"c.txt", some [97, 97, 97, 98]⟩] =
      [("group_0", [⟨"a.txt", some [97, 97, 97, 97]⟩, ⟨"b.txt", some [97, 97, 97, 97]⟩]),
        ("group_1", [⟨"a.txt", some [97, 97, 97, 97]⟩, ⟨"c.txt", some [97, 97, 97, 98]⟩])] ∧
    ("a.txt" ∈ ([⟨"a.txt", some [97, 97, 97, 97]⟩,
        ⟨"b.txt", some [97, 97, 97, 97]⟩] : List FileDesc).map FileDesc.path ∧
      "a.txt" ∈ ([⟨"a.txt", some [97, 97, 97, 97]⟩,
        ⟨"c.txt", some [97, 97, 97, 98]⟩] : List FileDesc).map FileDesc.path) := by
  refine ⟨by decide, by decide, by decide⟩

/-- All identifiers stored across the buckets of a hash dictionary. -/
def dictPaths (d : List (List Nat × List FileDesc)) : List String :=
  (d.map fun e => e.2.map FileDesc.path).join

/-- `bucketAdd` only appends the new file's identifier. -/
theorem bucketAdd_paths_perm :
    ∀ (acc : List (List Nat × List FileDesc)) (h : List Nat) (f : FileDesc),
      (dictPaths (bucketAdd acc h f)).Perm (dictPaths acc ++ [f.path]) := by
  intro acc
  induction acc with
  | nil => intro h f; simp [bucketAdd, dictPaths]
  | cons e0 rest ih =>
      intro h f
      obtain ⟨h0, g0⟩ := e0
      simp only [bucketAdd]
      by_cases heq : h0 = h
      · rw [if_pos heq]
        simp only [dictPaths, List.map_cons, List.join_cons, List.map_append,
          List.map_nil, List.append_assoc]
        exact List.Perm.append_left _ List.perm_append_comm
      · rw [if_neg heq]
        simp only [dictPaths, List.map_cons, List.join_cons, List.append_assoc]
        exact List.Perm.append_left _ (by simpa [dictPaths] using ih h f)

/-- The identifiers stored by the bucket loop are exactly those of the
readable input files, in some order. -/
theorem buildHashDict_paths_perm :
    ∀ (files : List FileDesc) (acc : List (List Nat × List FileDesc)),
      (dictPaths (buildHashDict files acc)).Perm
        (dictPaths acc ++ (files.filter fun f => f.content.isSome).map FileDesc.path) := by
  intro files
  induction files with
  | nil => intro acc; simp [buildHashDict]
  | cons f rest ih =>
      intro acc
      cases hc : getFileHash f with
      | none =>
          have hc' : f.content.isSome = false := by
            rw [show getFileHash f = f.content from rfl] at hc
            rw [hc]
            rfl
          simp only [buildHashDict, hc]
          simpa [List.filter_cons, hc'] using ih acc
      | some h =>
          have hc' : f.content.isSome = true := by
            rw [show getFileHash f = f.content from rfl] at hc
            rw [hc]
            rfl
          simp only [buildHashDict, hc]
          refine (ih (bucketAdd acc h f)).trans ?_
          refine ((bucketAdd_paths_perm acc h f).append_right _).trans ?_
          have hfil : ((f :: rest).filter fun f => f.content.isSome).map FileDesc.path =
              f.path :: (rest.filter fun f => f.content.isSome).map FileDesc.path := by
            simp [List.filter_cons, hc']
          rw [hfil, List.append_assoc]
          exact List.Perm.refl _

/-- Sublists of a list of lists join to sublists. -/
theorem join_sublist_of_sublist {α : Type} :
    ∀ {l1 l2 : List (List α)}, l1.Sublist l2 → l1.join.Sublist l2.join := by
  intro l1 l2 h
  induction h with
  | slnil => exact List.Sublist.refl _
  | cons a _ ih =>
      simp only [List.join_cons]
      exact ih.trans (List.sublist_append_right a _)
  | cons₂ a _ ih =>
      simp only [List.join_cons]
      exact (List.Sublist.refl a).append ih

/-- With pathwise-distinct input, the identifiers across the exact
duplicate groups are pairwise distinct. -/
theorem findExactDuplicates_paths_nodup (files : List FileDesc)
    (hnd : (files.map FileDesc.path).Nodup) :
    (dictPaths (findExactDuplicates files)).Nodup := by
  have hfull : (dictPaths (buildHashDict files [])).Nodup := by
    refine (buildHashDict_paths_perm files []).nodup_iff.mpr ?_
    simp only [dictPaths, List.map_nil, List.join_nil, List.nil_append]
    exact List.Nodup.sublist ((files.filter_sublist).map FileDesc.path) hnd
  refine List.Nodup.sublist ?_ hfull
  exact join_sublist_of_sublist
    (((buildHashDict files []).filter_sublist).map fun e => e.2.map FileDesc.path)

/-- The exact groups are pairwise identifier-disjoint (given pathwise
distinct input), and each group's identifiers are distinct. -/
theorem findExactDuplicates_pairwise (files : List FileDesc)
    (hnd : (files.map FileDesc.path).Nodup) :
    (findExactDuplicates files).Pairwise
      (fun e1 e2 => ∀ p, p ∈ e1.2.map FileDesc.path →
        p ∈ e2.2.map FileDesc.path → False) := by
  have h := findExactDuplicates_paths_nodup files hnd
  rw [dictPaths, List.nodup_join] at h
  have hp := h.2
  rw [List.pairwise_map] at hp
  refine hp.imp ?_
  intro e1 e2 hd p hp1 hp2
  exact hd hp1 hp2

/-- The assigned set after the inner scan holds exactly the old assigned
identifiers plus the identifiers of the collected members. -/
theorem groupScan_snd_iff (s : FileDesc → FileDesc → ℚ) (t : ℚ) (anchor : FileDesc) :
    ∀ (rest : List FileDesc) (assigned : List String) (p : String),
      p ∈ (groupScan s t anchor rest assigned).2 ↔
        p ∈ assigned ∨ p ∈ (groupScan s t anchor rest assigned).1.map FileDesc.path := by
  intro rest
  induction rest with
  | nil => intro assigned p; simp [groupScan]
  | cons f2 rest ih =>
      intro assigned p
      simp only [groupScan]
      by_cases hmem : f2.path ∈ assigned
      · rw [if_pos hmem]
        exact ih assigned p
      · rw [if_neg hmem]
        by_cases hsc : t ≤ s anchor f2
        · rw [if_pos hsc]
          simp only [List.map_cons, List.mem_cons]
          rw [ih (f2.path :: assigned) p]
          simp only [List.mem_cons]
          tauto
        · rw [if_neg hsc]
          exact ih assigned p

/-- Collected members were unassigned when the scan started. -/
theorem groupScan_fst_not_assigned (s : FileDesc → FileDesc → ℚ) (t : ℚ)
    (anchor : FileDesc) :
    ∀ (rest : List FileDesc) (assigned : List String) (f : FileDesc),
      f ∈ (groupScan s t anchor rest assigned).1 → f.path ∉ assigned := by
  intro rest
  induction rest with
  | nil => intro assigned f hf; simp [groupScan] at hf
  | cons f2 rest ih =>
      intro assigned f hf
      simp only [groupScan] at hf
      by_cases hmem : f2.path ∈ assigned
      · rw [if_pos hmem] at hf
        exact ih assigned f hf
      · rw [if_neg hmem] at hf
        by_cases hsc : t ≤ s anchor f2
        · rw [if_pos hsc] at hf
          rcases List.mem_cons.mp hf with hf | hf
          · subst hf; exact hmem
          · intro ha
            exact ih (f2.path :: assigned) f hf (List.mem_cons_of_mem _ ha)
        · rw [if_neg hsc] at hf
          exact ih assigned f hf

/-- Members of emitted groups were unassigned when the loop reached their
suffix. -/
theorem clusterLoop_not_assigned (s : FileDesc → FileDesc → ℚ) (t : ℚ) :
    ∀ (rest : List FileDesc) (i : Nat) (assigned : List String)
      (kg : String × List FileDesc), kg ∈ clusterLoop s t rest i assigned →
      ∀ f ∈ kg.2, f.path ∉ assigned := by
  intro rest
  induction rest with
  | nil => intro i assigned kg hkg; simp [clusterLoop] at hkg
  | cons f1 rest ih =>
      intro i assigned kg hkg f hf
      simp only [clusterLoop] at hkg
      by_cases hmem : f1.path ∈ assigned
      · rw [if_pos hmem] at hkg
        exact ih (i + 1) assigned kg hkg f hf
      · rw [if_neg hmem] at hkg
        have hsub : ∀ q, q ∈ assigned →
            q ∈ (groupScan s t f1 rest (f1.path :: assigned)).2 := by
          intro q hq
          exact (groupScan_snd_iff s t f1 rest (f1.path :: assigned) q).mpr
            (Or.inl (List.mem_cons_of_mem _ hq))
        by_cases hglen : 1 < (f1 :: (groupScan s t f1 rest (f1.path :: assigned)).1).length
        · rw [if_pos hglen] at hkg
          rcases List.mem_cons.mp hkg with hkg | hkg
          · subst hkg
            rcases List.mem_cons.mp hf with hf | hf
            · subst hf; exact hmem
            · intro ha
              exact groupScan_fst_not_assigned s t f1 rest (f1.path :: assigned) f hf
                (List.mem_cons_of_mem _ ha)
          · intro ha
            exact ih (i + 1) _ kg hkg f hf (hsub f.path ha)
        · rw [if_neg hglen] at hkg
          intro ha
          exact ih (i + 1) _ kg hkg f hf (hsub f.path ha)

/-- Distinct near-duplicate groups never share an identifier. -/
theorem clusterLoop_pairwise (s : FileDesc → FileDesc → ℚ) (t : ℚ) :
    ∀ (rest : List FileDesc) (i : Nat) (assigned : List String),
      (clusterLoop s t rest i assigned).Pairwise
        (fun kg1 kg2 => ∀ p, p ∈ kg1.2.map FileDesc.path →
          p ∈ kg2.2.map FileDesc.path → False) := by
  intro rest
  induction rest with
  | nil => intro i assigned; simp [clusterLoop]
  | cons f1 rest ih =>
      intro i assigned
      simp only [clusterLoop]
      by_cases hmem : f1.path ∈ assigned
      · rw [if_pos hmem]
        exact ih (i + 1) assigned
      · rw [if_neg hmem]
        by_cases hglen : 1 < (f1 :: (groupScan s t f1 rest (f1.path :: assigned)).1).length
        · rw [if_pos hglen]
          refine List.Pairwise.cons ?_ (ih (i + 1) _)
          intro kg hkg p hp1 hp2
          have hin2 : p ∈ (groupScan s t f1 rest (f1.path :: assigned)).2 := by
            simp only [List.map_cons, List.mem_cons] at hp1
            rcases hp1 with hp1 | hp1
            · subst hp1
              exact (groupScan_snd_iff s t f1 rest (f1.path :: assigned) _).mpr
                (Or.inl (List.mem_cons_self _ _))
            · exact (groupScan_snd_iff s t f1 rest (f1.path :: assigned) p).mpr
                (Or.inr hp1)
          obtain ⟨y, hy, hyp⟩ := List.mem_map.mp hp2
          exact clusterLoop_not_assigned s t rest (i + 1) _ kg hkg y hy (hyp ▸ hin2)
        · rw [if_neg hglen]
          exact ih (i + 1) _

/-- Membership in `exact_file_paths`. -/
theorem mem_exactTailPaths (exact : List (List Nat × List FileDesc)) (p : String) :
    p ∈ exactTailPaths exact ↔
      ∃ e ∈ exact, p ∈ (e.2.drop 1).map FileDesc.path := by
  induction exact with
  | nil => simp [exactTailPaths]
  | cons e rest ih =>
      simp only [exactTailPaths, List.foldr_cons, List.mem_append]
      rw [show exactTailPaths rest =
        rest.foldr (fun e acc => (e.2.drop 1).map FileDesc.path ++ acc) [] from rfl] at ih
      rw [ih]
      constructor
      · rintro (hp | ⟨e', he', hp⟩)
        · exact ⟨e, List.mem_cons_self _ _, hp⟩
        · exact ⟨e', List.mem_cons_of_mem _ he', hp⟩
      · rintro ⟨e', he', hp⟩
        rcases List.mem_cons.mp he' with he' | he'
        · subst he'; exact Or.inl hp
        · exact Or.inr ⟨e', he', hp⟩

/-- The merged numbering keeps the group lists. -/
theorem mergeNumber_mem :
    ∀ (gs : List (List FileDesc)) (n : Nat) (kg : String × List FileDesc),
      kg ∈ mergeNumber gs n → kg.2 ∈ gs := by
  intro gs
  induction gs with
  | nil => intro n kg hkg; simp [mergeNumber] at hkg
  | cons g rest ih =>
      intro n kg hkg
      simp only [mergeNumber] at hkg
      rcases List.mem_cons.mp hkg with hkg | hkg
      · subst hkg; exact List.mem_cons_self _ _
      · exact List.mem_cons_of_mem _ (ih (n + 1) kg hkg)

/-- A pairwise relation on the group lists transfers to the renumbered
mapping. -/
theorem mergeNumber_pairwise (R : List FileDesc → List FileDesc → Prop) :
    ∀ (gs : List (List FileDesc)) (n : Nat), gs.Pairwise R →
      (mergeNumber gs n).Pairwise (fun kg1 kg2 => R kg1.2 kg2.2) := by
  intro gs
  induction gs with
  | nil => intro n _; simp [mergeNumber]
  | cons g rest ih =>
      intro n hpw
      rcases List.pairwise_cons.mp hpw with ⟨hg, hrest⟩
      simp only [mergeNumber]
      refine List.Pairwise.cons ?_ (ih (n + 1) hrest)
      intro kg hkg
      exact hg kg.2 (mergeNumber_mem rest (n + 1) kg hkg)

/-- C1 (amended): in the returned mapping, an identifier shared by two
distinct groups can only be the *first member* (the kept representative)
of the earlier group — an exact group whose representative was re-used by
the near-duplicate pass; within the exact groups alone and within the
near-duplicate groups alone no identifier repeats (input paths assumed
distinct, as produced by the directory walk). -/
theorem c1_partition_amended (o : ImgOracle) (esd : Bool) (t : ℚ)
    (ph cs si fs : Bool) (files : List FileDesc)
    (hnd : (files.map FileDesc.path).Nodup) :
    (scanMerge o esd t ph cs si fs files).Pairwise
      (fun g1 g2 => ∀ p, p ∈ g1.2.map FileDesc.path → p ∈ g2.2.map FileDesc.path →
        g1.2.head?.map FileDesc.path = some p) := by
  have hexact := findExactDuplicates_pairwise files hnd
  simp only [scanMerge]
  by_cases hbr : esd = true ∧ t < 1
  · rw [if_neg (not_not_intro hbr)]
    refine mergeNumber_pairwise
      (fun a b => ∀ p, p ∈ a.map FileDesc.path → p ∈ b.map FileDesc.path →
        a.head?.map FileDesc.path = some p) _ 0 ?_
    rw [List.pairwise_append]
    refine ⟨?_, ?_, ?_⟩
    · rw [List.pairwise_map]
      refine hexact.imp ?_
      intro e1 e2 hd p hp1 hp2
      exact absurd (hd p hp1 hp2) not_false
    · rw [show findSimilarFiles o (mkSimilarityConfig t none ph cs si fs)
          (files.filter fun f =>
            decide (f.path ∉ exactTailPaths (findExactDuplicates files))) =
        clusterLoop
          (calculateSimilarity o (mkSimilarityConfig t none ph cs si fs)) t
          (files.filter fun f =>
            decide (f.path ∉ exactTailPaths (findExactDuplicates files))) 0 []
        from by
          unfold findSimilarFiles
          rw [if_neg (show ¬ 1 ≤ (mkSimilarityConfig t none ph cs si fs).threshold
            from not_le.mpr hbr.2)]
          rfl]
      rw [List.pairwise_map]
      refine (clusterLoop_pairwise _ _ _ 0 []).imp ?_
      intro kg1 kg2 hd p hp1 hp2
      exact absurd (hd p hp1 hp2) not_false
    · intro g1 hg1 g2 hg2 p hp1 hp2
      obtain ⟨e, he, rfl⟩ := List.mem_map.mp hg1
      obtain ⟨kg, hkg, rfl⟩ := List.mem_map.mp hg2
      rw [show findSimilarFiles o (mkSimilarityConfig t none ph cs si fs)
          (files.filter fun f =>
            decide (f.path ∉ exactTailPaths (findExactDuplicates files))) =
        clusterLoop
          (calculateSimilarity o (mkSimilarityConfig t none ph cs si fs)) t
          (files.filter fun f =>
            decide (f.path ∉ exactTailPaths (findExactDuplicates files))) 0 []
        from by
          unfold findSimilarFiles
          rw [if_neg (show ¬ 1 ≤ (mkSimilarityConfig t none ph cs si fs).threshold
            from not_le.mpr hbr.2)]
          rfl] at hkg
      obtain ⟨y, hy, hyp⟩ := List.mem_map.mp hp2
      obtain ⟨d, _, _, _, hs, _⟩ := clusterLoop_structure _ t _ 0 [] kg hkg
      have hyf := List.drop_subset d _ (hs.subset hy)
      have hyt : y.path ∉ exactTailPaths (findExactDuplicates files) := by
        have := (List.mem_filter.mp hyf).2
        simpa using this
      cases hE : e.2 with
      | nil => rw [hE] at hp1; cases hp1
      | cons hh tl =>
          rw [hE] at hp1
          simp only [List.map_cons, List.mem_cons] at hp1
          rcases hp1 with hp1 | hp1
          · simp [hp1]
          · exfalso
            refine hyt ?_
            rw [hyp]
            exact (mem_exactTailPaths _ _).mpr ⟨e, he, by rw [hE]; simpa using hp1⟩
  · rw [if_pos hbr]
    rw [List.pairwise_map]
    refine hexact.imp ?_
    intro e1 e2 hd p hp1 hp2
    exact absurd (hd p hp1 hp2) not_false

/-- C1 amended-claim witness: the counterexample input satisfies the
weakened partition discipline. -/
theorem c1_partition_amended_witness :
    (scanMerge trivOracle true (7/10) true true true false
        [⟨"a.txt", some [97, 97, 97, 97]⟩, ⟨"b.txt", some [97, 97, 97, 97]⟩,
          ⟨"c.txt", some [97, 97, 97, 98]⟩]).Pairwise
      (fun g1 g2 => ∀ p, p ∈ g1.2.map FileDesc.path → p ∈ g2.2.map FileDesc.path →
        g1.2.head?.map FileDesc.path = some p) :=
  c1_partition_amended trivOracle true (7/10) true true true false
    [⟨"a.txt", some [97, 97, 97, 97]⟩, ⟨"b.txt", some [97, 97, 97, 97]⟩,
      ⟨"c.txt", some [97, 97, 97, 98]⟩] (by decide)
